import Mathlib

/-!
Verification of the SurrealCam filter pipeline (src/filtros.py).

The Python source is shallowly embedded as follows.

* A pixel is three natural-number samples (R, G, B); a buffer (numpy array of
  shape (h, w, 3)) is a list of rows, each row a list of pixels.
* The filesystem is a map from paths to optional byte lists; shutil.copyfile
  raises (Except.error) when the source file is missing.
* PIL (Image.open + convert("RGB"), Image.resize, Image.save) is an external
  library, so it is abstracted as a structure of oracle functions; the
  geometry of Image.thumbnail (which dimensions it produces) is modelled
  exactly, as PIL computes it, with denominator-cleared integer arithmetic in
  place of float ratios.
* numpy's random draws are modelled by an oracle stream of naturals;
  np.random.randint(low, high) yields a value in [low, high) and raises
  (Except.error) when high <= low, exactly as numpy does.
* Python float expressions over small integer data are modelled by the exact
  rational value, written with explicit integer numerators/denominators;
  int(...) and .astype casts truncate toward zero (Int.tdiv).
* try/except blocks become a match on an Except-valued core: the body of the
  try is one definition (ending in the encode step), and the wrapper either
  installs the encoded bytes at the output path or, on any error, performs
  the fallback copyfile of the except branch.
-/

/-- One RGB pixel: three 8-bit samples (held as naturals). -/
structure Pixel where
  r : ℕ
  g : ℕ
  b : ℕ
deriving DecidableEq

/-- An image buffer: a list of rows, each a list of pixels
(numpy shape (h, w, 3), channel order R, G, B). -/
abbrev Img : Type := List (List Pixel)

/-- Buffer height, numpy shape component 0. -/
def Img.height (i : Img) : ℕ := i.length

/-- Buffer width, numpy shape component 1 (length of the first row;
0 for an empty buffer). -/
def Img.width (i : Img) : ℕ := (i.headD []).length

/-- Pixel lookup img_array[y, x]; out-of-range reads return black
(in-range accesses of well-formed buffers never see the default). -/
def getPixel (i : Img) (y x : ℕ) : Pixel := (i.getD y []).getD x ⟨0, 0, 0⟩

/-- All three samples fit in a uint8. -/
def Pixel.InRange (p : Pixel) : Prop := p.r ≤ 255 ∧ p.g ≤ 255 ∧ p.b ≤ 255

instance (p : Pixel) : Decidable p.InRange := by
  unfold Pixel.InRange
  infer_instance

/-- File contents. -/
abbrev Bytes : Type := List ℕ

/-- The filesystem: a map from paths to the bytes of the file stored there,
none when no file exists at the path. -/
abbrev FS : Type := String → Option Bytes

/-- Write a file (creating or overwriting), as PIL save or shutil.copyfile
do at their destination path. -/
def setFile (fs : FS) (path : String) (b : Bytes) : FS :=
  fun q => if q = path then some b else fs q

/-- shutil.copyfile src dst: reads src and writes its bytes to dst verbatim;
raises (FileNotFoundError and friends) when src does not exist. -/
def copyfile (fs : FS) (src dst : String) : Except Unit FS :=
  match fs src with
  | some b => .ok (setFile fs dst b)
  | none => .error ()

deriving instance DecidableEq for Except

/-- Oracle for numpy's random source: an unbounded stream of naturals and a
cursor.  Each draw consumes one stream element.  This models which values
are possible, abstracting the distribution (the source never seeds numpy,
so per-call randomness is non-reproducible anyway). -/
structure Rng where
  stream : ℕ → ℕ
  idx : ℕ

/-- Consume one raw draw. -/
def Rng.next (g : Rng) : ℕ × Rng := (g.stream g.idx, ⟨g.stream, g.idx + 1⟩)

/-- np.random.randint(low, high): a value in [low, high), raising ValueError
(modelled as Except.error) when low >= high, exactly as numpy does. -/
def randint (low high : ℤ) (g : Rng) : Except Unit (ℤ × Rng) :=
  if high ≤ low then .error ()
  else
    let (u, g') := g.next
    .ok (low + (u : ℤ) % (high - low), g')

/-- np.random.random(): a value in [0, 1), modelled at granularity 10^-6 as
the numerator over 1000000 (comparisons against the float thresholds 0.15
and 0.5 in the source are made at the same granularity). -/
def randFrac (g : Rng) : ℕ × Rng :=
  let (u, g') := g.next
  (u % 1000000, g')

/-- np.random.choice([1, 2, 3, 4]). -/
def randChoice4 (g : Rng) : ℕ × Rng :=
  let (u, g') := g.next
  (1 + u % 4, g')

/-- Model of the PIL primitives the source uses.  decode models
Image.open followed by convert("RGB") and .copy(): it turns file bytes into
an RGB buffer, none when the bytes are not a decodable image.  resample
models Image.resize / the resampling step of thumbnail at a requested
(width, height).  encode models Image.save at a given JPEG quality,
none when saving fails (unwritable path, disk full). -/
structure PILModel where
  decode : Bytes → Option Img
  resample : Img → ℕ × ℕ → Img
  encode : Img → ℕ → Option Bytes

/-- The PIL resize contract: a resample request of size (w, h) returns a
buffer of exactly h rows, each of length w. -/
def PILwf (m : PILModel) : Prop :=
  ∀ i s, (m.resample i s).length = s.2 ∧ ∀ row ∈ m.resample i s, row.length = s.1

/-- PIL round_aspect for the landscape branch of thumbnail: pick between
floor and ceil of y0*w/h the candidate n minimising |w/h - n/y0|
(min(floor, ceil, key) keeps floor on ties), then max with 1.
Exact integer form: the error |w/h - n/y0| scales to |w*y0 - n*h| over the
common positive denominator h*y0. -/
def roundAspectX (w h y0 : ℕ) : ℕ :=
  let f := y0 * w / h
  let c := (y0 * w + h - 1) / h
  let errF : ℤ := |(w * y0 : ℤ) - f * h|
  let errC : ℤ := |(w * y0 : ℤ) - c * h|
  max 1 (if errC < errF then c else f)

/-- PIL round_aspect for the portrait branch of thumbnail: pick between
floor and ceil of x0*h/w the candidate n minimising
(0 if n = 0 else |w/h - x0/n|), floor kept on ties, then max with 1.
Exact integer form: |w/h - x0/n| scales to |w*n - x0*h| over h*n, so the
two candidates are compared by cross-multiplying their denominators. -/
def roundAspectY (w h x0 : ℕ) : ℕ :=
  let f := x0 * h / w
  let c := (x0 * h + w - 1) / w
  let errF : ℤ := |(w * f : ℤ) - x0 * h|
  let errC : ℤ := |(w * c : ℤ) - x0 * h|
  let takeC : Bool := if f = 0 then false else decide (errC * f < errF * c)
  max 1 (if takeC then c else f)

/-- The size Image.thumbnail((x0, y0)) leaves the image at: unchanged when
both caps already hold, otherwise scaled preserving aspect ratio so that
neither dimension exceeds its cap (x0/y0 >= w/h is cleared to
x0*h >= w*y0). -/
def thumbnailDims (x0 y0 w h : ℕ) : ℕ × ℕ :=
  if w ≤ x0 ∧ h ≤ y0 then (w, h)
  else if w * y0 ≤ x0 * h then (roundAspectX w h y0, y0)
  else (x0, roundAspectY w h x0)

/-- Image.thumbnail(max_size, LANCZOS): returns early when the image
already fits, otherwise resamples to thumbnailDims. -/
def thumbnailApply (m : PILModel) (x0 y0 : ℕ) (i : Img) : Img :=
  if i.width ≤ x0 ∧ i.height ≤ y0 then i
  else m.resample i (thumbnailDims x0 y0 i.width i.height)

/-- load_and_resize (src/filtros.py:24): open the image, convert to RGB,
copy, and thumbnail it to max_size; any failure (missing file, undecodable
bytes) re-raises to the caller. -/
def load_and_resize (m : PILModel) (fs : FS) (input_path : String)
    (x0 y0 : ℕ) : Except Unit Img :=
  match fs input_path with
  | none => .error ()
  | some bts =>
    match m.decode bts with
    | none => .error ()
    | some img => .ok (thumbnailApply m x0 y0 img)

/-- filtro_normal (src/filtros.py:17): copy the file without modification,
bypassing decode, resize and encode entirely. -/
def filtro_normal (fs : FS) (input_path output_path : String) : Except Unit FS :=
  copyfile fs input_path output_path

/-- check_disk_space (src/filtros.py:513): the shutil.disk_usage query is
abstracted as its outcome (free bytes, or a raised error).  The source
compares stat.free / (1024*1024) > 50; free bytes being far below float
precision limits, the comparison equals the exact integer comparison
free > 50 * 1024 * 1024.  A failed query returns True (optimistic). -/
def check_disk_space (stat : Except Unit ℕ) : Bool :=
  match stat with
  | .ok free => decide (50 * 1024 * 1024 < free)
  | .error _ => true

/-- np.clip(v, 0, 255) of a signed intermediate, landing back in uint8. -/
def clip255 (v : ℤ) : ℕ := (min (max v 0) 255).toNat

/-- PIL convert("L") per pixel, the fixed-point form PIL computes
(R*299/1000 + G*587/1000 + B*114/1000 as (R*19595 + G*38470 + B*7471 +
0x8000) >> 16). -/
def lumL (p : Pixel) : ℕ := (p.r * 19595 + p.g * 38470 + p.b * 7471 + 32768) / 65536

/-- convert("L") over the whole buffer. -/
def grayOf (i : Img) : List (List ℕ) := i.map (List.map lumL)

/-- Threaded random-state map over one row, propagating raised errors. -/
def mapRowRng (f : Pixel → Rng → Except Unit (Pixel × Rng)) :
    List Pixel → Rng → Except Unit (List Pixel × Rng)
  | [], g => .ok ([], g)
  | p :: ps, g => do
    let (q, g') ← f p g
    let (qs, g'') ← mapRowRng f ps g'
    .ok (q :: qs, g'')

/-- Threaded random-state map over a buffer. -/
def mapImgRng (f : Pixel → Rng → Except Unit (Pixel × Rng)) :
    Img → Rng → Except Unit (Img × Rng)
  | [], g => .ok ([], g)
  | row :: rows, g => do
    let (r', g') ← mapRowRng f row g
    let (rs', g'') ← mapImgRng f rows g'
    .ok (r' :: rs', g'')

/-- filtro_grano_analogico per-pixel step (src/filtros.py:53-63): draw
integer noise n in [-intensidad, intensidad] (np.random.randint with
high = intensidad+1), scale it by 0.5 + 0.5*lum where lum = mean(R,G,B)/255,
truncate to int16, add to all three channels, clip to [0,255].
n * (0.5 + (r+g+b)/(3*255)) written exactly is n*(765 + r+g+b)/1530, and the
.astype(np.int16) cast truncates toward zero. -/
def granoPixel (intensidad : ℤ) (p : Pixel) (g : Rng) : Except Unit (Pixel × Rng) := do
  let (n, g') ← randint (-intensidad) (intensidad + 1) g
  let s : ℤ := (p.r : ℤ) + p.g + p.b
  let ns : ℤ := Int.tdiv (n * (765 + s)) 1530
  .ok (⟨clip255 (p.r + ns), clip255 (p.g + ns), clip255 (p.b + ns)⟩, g')

/-- Load + transform + encode stages of filtro_grano_analogico
(the body of its try block, src/filtros.py:51-66). -/
def granoCore (m : PILModel) (g : Rng) (fs : FS) (input_path : String)
    (intensidad : ℤ) (x0 y0 : ℕ) : Except Unit (Img × Bytes × Rng) := do
  let image ← load_and_resize m fs input_path x0 y0
  let (noisy, g') ← mapImgRng (granoPixel intensidad) image g
  match m.encode noisy 85 with
  | some bts => .ok (noisy, bts, g')
  | none => .error ()

/-- filtro_grano_analogico (src/filtros.py:45): on any failure in the try
body, fall back to copyfile(input_path, output_path); note the fallback
itself is not guarded, so it re-raises when the input file is unreadable. -/
def filtro_grano_analogico (m : PILModel) (g : Rng) (fs : FS)
    (input_path output_path : String) (intensidad : ℤ) (x0 y0 : ℕ) :
    Except Unit FS :=
  match granoCore m g fs input_path intensidad x0 y0 with
  | .ok (_, bts, _) => .ok (setFile fs output_path bts)
  | .error _ => copyfile fs input_path output_path

/-- Rotation count turning List.rotate (a left rotation) into
np.roll's right circular shift by off along axis 1. -/
def rollK (off : ℤ) (n : ℕ) : ℕ := ((-off) % (n : ℤ)).toNat

/-- np.roll(row, off, axis=1) on one row of pixels. -/
def rollRow (off : ℤ) (row : List Pixel) : List Pixel :=
  row.rotate (rollK off row.length)

/-- r[:] = np.roll(r, offset, axis=1): circularly shift only the red
channel of every row (src/filtros.py:90-95). -/
def rollRed (off : ℤ) (i : Img) : Img :=
  i.map (fun row =>
    let reds := (row.map Pixel.r).rotate (rollK off row.length)
    List.zipWith (fun p rv => ⟨rv, p.g, p.b⟩) row reds)

/-- One glitched horizontal band: rows [y, yEnd) are circularly shifted
by xOffset. -/
structure Band where
  y : ℕ
  yEnd : ℕ
  xOffset : ℤ
deriving DecidableEq

/-- The three draws of one glitch-line iteration (src/filtros.py:98-102):
y = randint(0, max(1, h-10)), slice_height = randint(2, 8),
x_offset = randint(-shift, shift); the shifted band ends at
min(y + slice_height, h). -/
def bandDraw (h : ℕ) (shift : ℤ) (g : Rng) : Except Unit (Band × Rng) := do
  let (y, g1) ← randint 0 (max 1 ((h : ℤ) - 10)) g
  let (sliceHeight, g2) ← randint 2 8 g1
  let (xOffset, g3) ← randint (-shift) shift g2
  .ok (⟨y.toNat, min (y.toNat + sliceHeight.toNat) h, xOffset⟩, g3)

/-- The bands drawn by the glitch loop, in order (count already clamped
by the caller to min(glitch_lines, 15)). -/
def glitchBands : ℕ → ℕ → ℤ → Rng → Except Unit (List Band × Rng)
  | 0, _, _, g => .ok ([], g)
  | n + 1, h, shift, g => do
    let (b, g') ← bandDraw h shift g
    let (bs, g'') ← glitchBands n h shift g'
    .ok (b :: bs, g'')

/-- img_array[y:y_end] = np.roll(img_array[y:y_end], x_offset, axis=1). -/
def applyBand (i : Img) (b : Band) : Img :=
  i.mapIdx (fun j row => if b.y ≤ j ∧ j < b.yEnd then rollRow b.xOffset row else row)

/-- The try body of filtro_glitch_digital (src/filtros.py:84-106): load,
roll the red channel by a random offset, roll up to 15 random bands,
encode at quality 85. -/
def glitchCore (m : PILModel) (g : Rng) (fs : FS) (input_path : String)
    (shift : ℤ) (glitch_lines : ℕ) (x0 y0 : ℕ) : Except Unit (Img × Bytes × Rng) := do
  let image ← load_and_resize m fs input_path x0 y0
  let h := image.height
  let (offset, g') ← randint (-shift) shift g
  let img1 := rollRed offset image
  let (bands, g'') ← glitchBands (min glitch_lines 15) h shift g'
  let img2 := bands.foldl applyBand img1
  match m.encode img2 85 with
  | some bts => .ok (img2, bts, g'')
  | none => .error ()

/-- filtro_glitch_digital (src/filtros.py:78). -/
def filtro_glitch_digital (m : PILModel) (g : Rng) (fs : FS)
    (input_path output_path : String) (shift : ℤ) (glitch_lines : ℕ)
    (x0 y0 : ℕ) : Except Unit FS :=
  match glitchCore m g fs input_path shift glitch_lines x0 y0 with
  | .ok (_, bts, _) => .ok (setFile fs output_path bts)
  | .error _ => copyfile fs input_path output_path

/-- filtro_rojo_contraste buffer (src/filtros.py:125-130): luminance into
the red channel of an otherwise zero buffer. -/
def rojoBuffer (i : Img) : Img := (grayOf i).map (List.map (fun l => ⟨l, 0, 0⟩))

/-- Try body of filtro_rojo_contraste. -/
def rojoCore (m : PILModel) (fs : FS) (input_path : String) (x0 y0 : ℕ) :
    Except Unit (Img × Bytes) := do
  let image ← load_and_resize m fs input_path x0 y0
  match m.encode (rojoBuffer image) 85 with
  | some bts => .ok (rojoBuffer image, bts)
  | none => .error ()

/-- filtro_rojo_contraste (src/filtros.py:118). -/
def filtro_rojo_contraste (m : PILModel) (fs : FS)
    (input_path output_path : String) (x0 y0 : ℕ) : Except Unit FS :=
  match rojoCore m fs input_path x0 y0 with
  | .ok (_, bts) => .ok (setFile fs output_path bts)
  | .error _ => copyfile fs input_path output_path

/-- filtro_sepia_contraste per-pixel channels (src/filtros.py:158-160):
R = clip(L*1.0), G = clip(L*0.8), B = clip(L*0.5), each clipped to [0,255]
and cast uint8.  On the integral luminance values L in [0,255] held by the
float32 gray array, the casts evaluate to L, 4*L/5 and L/2 (floor). -/
def sepiaPixel (l : ℕ) : Pixel := ⟨min l 255, min (4 * l / 5) 255, min (l / 2) 255⟩

/-- The sepia buffer: gray conversion then the sepia tint per pixel. -/
def sepiaBuffer (i : Img) : Img := (grayOf i).map (List.map sepiaPixel)

/-- Try body of filtro_sepia_contraste. -/
def sepiaCore (m : PILModel) (fs : FS) (input_path : String) (x0 y0 : ℕ) :
    Except Unit (Img × Bytes) := do
  let image ← load_and_resize m fs input_path x0 y0
  match m.encode (sepiaBuffer image) 85 with
  | some bts => .ok (sepiaBuffer image, bts)
  | none => .error ()

/-- filtro_sepia_contraste (src/filtros.py:145). -/
def filtro_sepia_contraste (m : PILModel) (fs : FS)
    (input_path output_path : String) (x0 y0 : ℕ) : Except Unit FS :=
  match sepiaCore m fs input_path x0 y0 with
  | .ok (_, bts) => .ok (setFile fs output_path bts)
  | .error _ => copyfile fs input_path output_path

/-- filtro_azul_contraste buffer (src/filtros.py:182-187): luminance into
the blue channel of an otherwise zero buffer. -/
def azulBuffer (i : Img) : Img := (grayOf i).map (List.map (fun l => ⟨0, 0, l⟩))

/-- Try body of filtro_azul_contraste. -/
def azulCore (m : PILModel) (fs : FS) (input_path : String) (x0 y0 : ℕ) :
    Except Unit (Img × Bytes) := do
  let image ← load_and_resize m fs input_path x0 y0
  match m.encode (azulBuffer image) 85 with
  | some bts => .ok (azulBuffer image, bts)
  | none => .error ()

/-- filtro_azul_contraste (src/filtros.py:175). -/
def filtro_azul_contraste (m : PILModel) (fs : FS)
    (input_path output_path : String) (x0 y0 : ℕ) : Except Unit FS :=
  match azulCore m fs input_path x0 y0 with
  | .ok (_, bts) => .ok (setFile fs output_path bts)
  | .error _ => copyfile fs input_path output_path

/-- Oracle for the float trigonometry of filtro_espiral, carrying the exact
real values the source computes with np.sqrt / np.arctan2 / np.cos / np.sin:
dist dx dy stands for sqrt(dx^2 + dy^2), and srcX dx dy rot / srcY dx dy rot
stand for dist * cos(arctan2(dy,dx) + rot) and dist * sin(arctan2(dy,dx) + rot).
Theorems about the warp take the exactness facts they need as hypotheses on
this oracle. -/
structure SpiralMath where
  dist : ℤ → ℤ → ℚ
  srcX : ℤ → ℤ → ℚ → ℚ
  srcY : ℤ → ℤ → ℚ → ℚ

/-- Python int(...) on a float value: truncation toward zero. -/
def ratTrunc (q : ℚ) : ℤ := Int.tdiv q.num (q.den : ℤ)

/-- One destination pixel of the spiral warp (src/filtros.py:227-248):
polar offset from the center (h//2, w//2); a zero-distance pixel copies
itself; otherwise the angle is rotated by (distance/max_radius)*intensidad
and the source pixel at the rotated polar coordinate is sampled, black when
it falls out of bounds. -/
def espiralPixel (sm : SpiralMath) (i : Img) (h w : ℕ) (intensidad : ℚ)
    (y x : ℕ) : Pixel :=
  let cy : ℤ := (h : ℤ) / 2
  let cx : ℤ := (w : ℤ) / 2
  let dx : ℤ := (x : ℤ) - cx
  let dy : ℤ := (y : ℤ) - cy
  let distance := sm.dist dx dy
  if distance = 0 then getPixel i y x
  else
    let maxRadius := sm.dist cx cy
    let rotation := distance / maxRadius * intensidad
    let sx : ℤ := ratTrunc ((cx : ℚ) + sm.srcX dx dy rotation)
    let sy : ℤ := ratTrunc ((cy : ℚ) + sm.srcY dx dy rotation)
    if 0 ≤ sx ∧ sx < (w : ℤ) ∧ 0 ≤ sy ∧ sy < (h : ℤ) then
      getPixel i sy.toNat sx.toNat
    else ⟨0, 0, 0⟩

/-- The full spiral warp output buffer (np.zeros_like with every entry
assigned by the double loop). -/
def espiralWarp (sm : SpiralMath) (intensidad : ℚ) (i : Img) : Img :=
  (List.range i.height).map (fun y =>
    (List.range i.width).map (fun x =>
      espiralPixel sm i i.height i.width intensidad y x))

/-- Try body of filtro_espiral (src/filtros.py:216-256). -/
def espiralCore (m : PILModel) (sm : SpiralMath) (fs : FS)
    (input_path : String) (intensidad : ℚ) (x0 y0 : ℕ) :
    Except Unit (Img × Bytes) := do
  let image ← load_and_resize m fs input_path x0 y0
  let out := espiralWarp sm intensidad image
  match m.encode out 85 with
  | some bts => .ok (out, bts)
  | none => .error ()

/-- filtro_espiral (src/filtros.py:202): returns True on success; on any
failure copies the input to the output and returns False. -/
def filtro_espiral (m : PILModel) (sm : SpiralMath) (fs : FS)
    (input_path output_path : String) (intensidad : ℚ) (x0 y0 : ℕ) :
    Except Unit (FS × Bool) :=
  match espiralCore m sm fs input_path intensidad x0 y0 with
  | .ok (_, bts) => .ok (setFile fs output_path bts, true)
  | .error _ => (copyfile fs input_path output_path).map (fun fs' => (fs', false))

/-- One normalized channel of filtro_wes_anderson (src/filtros.py:290-320),
carried as the exact fraction of the float value: v/255, contrast
0.85*f + 0.075, brightness clip(1.15*c, 0, 1), warm gain
clip((gainN/gainD)*b, 0, 1), blend res = 0.75*t + 0.25*(pinkN/pinkD), then
uint8 via truncation of clip(res*255, 0, 255).  The clip lower bounds are
omitted because every quantity is nonnegative by construction. -/
def wesChan (gainN gainD pinkN pinkD v : ℕ) : ℕ :=
  let cN := 34 * v + 765
  let cD := 10200
  let bN := min (23 * cN) (20 * cD)
  let bD := 20 * cD
  let tN := min (gainN * bN) (gainD * bD)
  let tD := gainD * bD
  let rN := 3 * pinkD * tN + pinkN * tD
  let rD := 4 * pinkD * tD
  min (255 * rN / rD) 255

/-- The whole per-pixel map of filtro_wes_anderson: warm gains
(R 1.08 = 27/25, G 1.05 = 21/20, B 0.95 = 19/20), pink overlay
(1.0, 0.92, 0.92) = (1/1, 23/25, 23/25), then ImageEnhance.Color 0.9,
which blends 10 percent of the grayscale of the intermediate result back
into it (PIL blend cast truncates; every value is nonnegative). -/
def wesPixel (p : Pixel) : Pixel :=
  let r1 := wesChan 27 25 1 1 p.r
  let g1 := wesChan 21 20 23 25 p.g
  let b1 := wesChan 19 20 23 25 p.b
  let l := lumL ⟨r1, g1, b1⟩
  ⟨(l + 9 * r1) / 10, (l + 9 * g1) / 10, (l + 9 * b1) / 10⟩

/-- filtro_wes_anderson output buffer. -/
def wesBuffer (i : Img) : Img := i.map (List.map wesPixel)

/-- Try body of filtro_wes_anderson (src/filtros.py:271-340), saved at
quality 90. -/
def wesCore (m : PILModel) (fs : FS) (input_path : String) (x0 y0 : ℕ) :
    Except Unit (Img × Bytes) := do
  let image ← load_and_resize m fs input_path x0 y0
  match m.encode (wesBuffer image) 90 with
  | some bts => .ok (wesBuffer image, bts)
  | none => .error ()

/-- filtro_wes_anderson (src/filtros.py:266): True on success, fallback
copy and False on failure. -/
def filtro_wes_anderson (m : PILModel) (fs : FS)
    (input_path output_path : String) (x0 y0 : ℕ) : Except Unit (FS × Bool) :=
  match wesCore m fs input_path x0 y0 with
  | .ok (_, bts) => .ok (setFile fs output_path bts, true)
  | .error _ => (copyfile fs input_path output_path).map (fun fs' => (fs', false))

/-- Write one pixel of the buffer (numpy scalar assignment at an index the
source has already bounds-checked). -/
def setPixel (i : Img) (y x : ℕ) (p : Pixel) : Img :=
  i.set y ((i.getD y []).set x p)

/-- matrix_array[y, x, 1] = 255 keeping the other two channels. -/
def setGreen (i : Img) (y x : ℕ) : Img :=
  let p := getPixel i y x
  setPixel i y x ⟨p.r, 255, p.b⟩

/-- filtro_matrix_simple base pixel (src/filtros.py:360-363): keep green,
red = green // 3, blue = green // 6. -/
def matrixSimplePixel (p : Pixel) : Pixel := ⟨p.g / 3, p.g, p.g / 6⟩

/-- One iteration of the matrix_simple highlight loop
(src/filtros.py:366-371): x = randint(0, w), y = randint(0, h); if the
green sample there is below 200, brighten the pixel to (100, 255, 100). -/
def msStep (h w : ℕ) (st : Img × Rng) : Except Unit (Img × Rng) := do
  let (ma, g) := st
  let (x, g1) ← randint 0 (w : ℤ) g
  let (y, g2) ← randint 0 (h : ℤ) g1
  if (getPixel ma y.toNat x.toNat).g < 200 then
    .ok (setPixel ma y.toNat x.toNat ⟨100, 255, 100⟩, g2)
  else .ok (ma, g2)

/-- Try body of filtro_matrix_simple (src/filtros.py:355-374): base tint,
then w*h//100 random highlights, encode at quality 90. -/
def matrixSimpleCore (m : PILModel) (g : Rng) (fs : FS) (input_path : String)
    (x0 y0 : ℕ) : Except Unit (Img × Bytes × Rng) := do
  let image ← load_and_resize m fs input_path x0 y0
  let base : Img := image.map (List.map matrixSimplePixel)
  let h := base.height
  let w := base.width
  let (ma, g') ← (List.range (w * h / 100)).foldlM (fun st _ => msStep h w st) (base, g)
  match m.encode ma 90 with
  | some bts => .ok (ma, bts, g')
  | none => .error ()

/-- filtro_matrix_simple (src/filtros.py:351): True on success, fallback
copy and False on failure. -/
def filtro_matrix_simple (m : PILModel) (g : Rng) (fs : FS)
    (input_path output_path : String) (x0 y0 : ℕ) : Except Unit (FS × Bool) :=
  match matrixSimpleCore m g fs input_path x0 y0 with
  | .ok (_, bts, _) => .ok (setFile fs output_path bts, true)
  | .error _ => (copyfile fs input_path output_path).map (fun fs' => (fs', false))

/-- filtro_matrix_verde base pixel (src/filtros.py:401-403) applied to the
luminance l: green = clip(l*0.8) (which on integral float32 values in
uint8 range truncates to 4*l/5), red = l // 8, blue = l // 16. -/
def matrixVerdePixel (l : ℕ) : Pixel := ⟨l / 8, min (4 * l / 5) 255, l / 16⟩

/-- Python range(0, n, step) for positive step. -/
def stepRange (n step : ℕ) : List ℕ :=
  (List.range ((n + step - 1) / step)).map (fun k => k * step)

/-- Sum of the gray slice gray[y:yEnd, x:xEnd]. -/
def sliceSum (gray : List (List ℕ)) (y yEnd x xEnd : ℕ) : ℕ :=
  (((gray.drop y).take (yEnd - y)).map (fun row => ((row.drop x).take (xEnd - x)).sum)).sum

/-- np.mean(gray[y:yEnd, x:xEnd]) < 100, compared exactly:
sum < 100 * element count (an empty slice gives nan < 100, i.e. False,
which the integer form 0 < 0 also gives). -/
def sliceMeanLt100 (gray : List (List ℕ)) (y yEnd x xEnd : ℕ) : Bool :=
  decide (sliceSum gray y yEnd x xEnd < 100 * ((yEnd - y) * (xEnd - x)))

/-- A numpy scalar assignment matrix_array[y, x, 1] = 255 whose index the
source has not fully guarded: numpy raises IndexError when an index is out
of range (negative indices cannot arise here). -/
def setGreenChecked (i : Img) (y x h w : ℕ) : Except Unit Img :=
  if y < h ∧ x < w then .ok (setGreen i y x) else .error ()

/-- One cell of the glyph-stamping loop of filtro_matrix_verde
(src/filtros.py:407-444), at cell origin (y, x) with cell size 3 x 2:
with probability 0.15, if the cell's mean luminance is below 100, stamp one
of four patterns (center dot / vertical tick / horizontal tick / a diagonal)
in full green.  The anti-diagonal arm guards only yy < h and xx >= 0, so its
column index x+1 can fall outside the buffer and raise IndexError. -/
def cellStep (gray : List (List ℕ)) (h w : ℕ) (yx : ℕ × ℕ) (st : Img × Rng) :
    Except Unit (Img × Rng) :=
  let (ma, g) := st
  let (y, x) := yx
  if y < h ∧ x < w then
    let (rv, g) := randFrac g
    if rv < 150000 then
      let yEnd := min (y + 3) h
      let xEnd := min (x + 2) w
      if sliceMeanLt100 gray y yEnd x xEnd then
        let (pt, g) := randChoice4 g
        if pt = 1 then
          if y + 1 < h ∧ x + 1 < w then .ok (setGreen ma (y + 1) (x + 1), g)
          else .ok (ma, g)
        else if pt = 2 then
          if x + 1 < w then
            .ok ((List.range (yEnd - y)).foldl (fun m2 j => setGreen m2 (y + j) (x + 1)) ma, g)
          else .ok (ma, g)
        else if pt = 3 then
          if y + 1 < h then
            .ok ((List.range (xEnd - x)).foldl (fun m2 j => setGreen m2 (y + 1) (x + j)) ma, g)
          else .ok (ma, g)
        else
          let (rv2, g) := randFrac g
          if 500000 < rv2 then
            .ok ((List.range 2).foldl
              (fun m2 j => if y + j < h ∧ x + j < w then setGreen m2 (y + j) (x + j) else m2)
              ma, g)
          else
            ((List.range 2).foldlM
              (fun m2 j =>
                if y + j < h then setGreenChecked m2 (y + j) (x + 1 - j) h w else .ok m2)
              ma).map (fun m2 => (m2, g))
      else .ok (ma, g)
    else .ok (ma, g)
  else .ok (ma, g)

/-- One vertical rain streak of filtro_matrix_verde (src/filtros.py:446-454):
x = randint(0, w), length = randint(20, min(60, h // 1.5)) (h // 1.5 is
float floor division, exactly 2*h//3; randint raises when that upper bound
is at most 20), start_y = randint(0, max(1, h - length)), then green is set
down the column with each row guarded by y_pos < h. -/
def streakStep (h w : ℕ) (st : Img × Rng) : Except Unit (Img × Rng) := do
  let (ma, g) := st
  let (x, g1) ← randint 0 (w : ℤ) g
  let (len, g2) ← randint 20 ((min 60 (2 * h / 3) : ℕ) : ℤ) g1
  let (startY, g3) ← randint 0 (max 1 ((h : ℤ) - len)) g2
  let ma2 := (List.range len.toNat).foldl
    (fun m2 j => if startY.toNat + j < h then setGreen m2 (startY.toNat + j) x.toNat else m2) ma
  .ok (ma2, g3)

/-- Try body of filtro_matrix_verde (src/filtros.py:393-457): gray
conversion, green-dominant base, the cell glyph loop over a 3 x 2 grid,
h//25 vertical streaks, encode at quality 95. -/
def matrixVerdeCore (m : PILModel) (g : Rng) (fs : FS) (input_path : String)
    (x0 y0 : ℕ) : Except Unit (Img × Bytes × Rng) := do
  let image ← load_and_resize m fs input_path x0 y0
  let gray := grayOf image
  let h := gray.length
  let w := (gray.headD []).length
  let base : Img := gray.map (List.map matrixVerdePixel)
  let cells := (stepRange h 3).flatMap (fun y => (stepRange w 2).map (fun x => (y, x)))
  let (ma, g') ← cells.foldlM (fun st yx => cellStep gray h w yx st) (base, g)
  let (ma2, g'') ← (List.range (h / 25)).foldlM (fun st _ => streakStep h w st) (ma, g')
  match m.encode ma2 95 with
  | some bts => .ok (ma2, bts, g'')
  | none => .error ()

/-- filtro_matrix_verde (src/filtros.py:389): True on success, fallback
copy and False on failure. -/
def filtro_matrix_verde (m : PILModel) (g : Rng) (fs : FS)
    (input_path output_path : String) (x0 y0 : ℕ) : Except Unit (FS × Bool) :=
  match matrixVerdeCore m g fs input_path x0 y0 with
  | .ok (_, bts, _) => .ok (setFile fs output_path bts, true)
  | .error _ => (copyfile fs input_path output_path).map (fun fs' => (fs', false))

/-- filtro_negativo per-pixel inversion (src/filtros.py:482): 255 - v on
uint8 samples; for in-range samples natural subtraction coincides. -/
def negPixel (p : Pixel) : Pixel := ⟨255 - p.r, 255 - p.g, 255 - p.b⟩

/-- The negative buffer: per-sample inversion of the whole image. -/
def negBuffer (i : Img) : Img := i.map (List.map negPixel)

/-- Try body of filtro_negativo (src/filtros.py:477-485). -/
def negativoCore (m : PILModel) (fs : FS) (input_path : String) (x0 y0 : ℕ) :
    Except Unit (Img × Bytes) := do
  let image ← load_and_resize m fs input_path x0 y0
  match m.encode (negBuffer image) 85 with
  | some bts => .ok (negBuffer image, bts)
  | none => .error ()

/-- filtro_negativo (src/filtros.py:472): True on success, fallback copy
and False on failure. -/
def filtro_negativo (m : PILModel) (fs : FS)
    (input_path output_path : String) (x0 y0 : ℕ) : Except Unit (FS × Bool) :=
  match negativoCore m fs input_path x0 y0 with
  | .ok (_, bts) => .ok (setFile fs output_path bts, true)
  | .error _ => (copyfile fs input_path output_path).map (fun fs' => (fs', false))

/-- Value of a successful Except, with a default for the error case
(used to name the concrete result of a concrete run). -/
def okVal {α : Type} (e : Except Unit α) (d : α) : α :=
  match e with
  | .ok a => a
  | .error _ => d

/-- A random oracle whose stream is constantly k. -/
def streamC (k : ℕ) : Rng := ⟨fun _ => k, 0⟩

/-- A random oracle with constant stream k and cursor already at i
(the state streamC k reaches after i draws). -/
def rngAt (k i : ℕ) : Rng := ⟨fun _ => k, i⟩

/-- A concrete 1 x 1 test image. -/
def img1 : Img := [[⟨10, 200, 30⟩]]

/-- A concrete 25 x 1 black test image (height 25 triggers the
matrix_verde streak loop). -/
def img25 : Img := List.replicate 25 [⟨0, 0, 0⟩]

/-- A concrete 1 x 1000 test image (wider than the 800 cap). -/
def imgWide : Img := [List.replicate 1000 ⟨0, 0, 0⟩]

/-- A concrete resampler honouring the PIL resize contract: the requested
size, filled black. -/
def resample0 : Img → ℕ × ℕ → Img :=
  fun _ s => List.replicate s.2 (List.replicate s.1 ⟨0, 0, 0⟩)

/-- Concrete PIL oracle: the bytes [1] decode to img1, saving succeeds
producing bytes [9]. -/
def pilOk : PILModel := ⟨fun b => if b = [1] then some img1 else none, resample0, fun _ _ => some [9]⟩

/-- Concrete PIL oracle whose save always fails (EncodeError stage). -/
def pilNoEnc : PILModel := ⟨fun b => if b = [1] then some img1 else none, resample0, fun _ _ => none⟩

/-- Concrete PIL oracle decoding [1] to the 25-row image. -/
def pil25 : PILModel := ⟨fun b => if b = [1] then some img25 else none, resample0, fun _ _ => some [9]⟩

/-- Concrete PIL oracle decoding [1] to the 1000-wide image. -/
def pilWide : PILModel := ⟨fun b => if b = [1] then some imgWide else none, resample0, fun _ _ => some [9]⟩

/-- A filesystem holding one file "a" with bytes [1]. -/
def fsA : FS := fun p => if p = "a" then some [1] else none

/-- The empty filesystem. -/
def fsNone : FS := fun _ => none

/-- A concrete spiral-math oracle satisfying the zero-rotation exactness
facts (dist is a stand-in returning dx^2 + dy^2, zero exactly at the
center, and the source offsets ignore the rotation). -/
def sm0 : SpiralMath :=
  ⟨fun dx dy => ((dx * dx + dy * dy : ℤ) : ℚ),
   fun dx _ _ => (dx : ℚ),
   fun _ dy _ => (dy : ℚ)⟩

/-- Two row-lists have the same height and the same first-row length
(the numpy shape components every transform preserves). -/
def DimsEq {α β : Type} (a : List (List α)) (b : List (List β)) : Prop :=
  a.length = b.length ∧ (a.headD []).length = (b.headD []).length

theorem setFile_self (fs : FS) (p : String) (b : Bytes) : setFile fs p b p = some b := by
  simp [setFile]

theorem randint_bounds {low high v : ℤ} {g g' : Rng}
    (h : randint low high g = .ok (v, g')) : low ≤ v ∧ v < high := by
  unfold randint at h
  by_cases hlh : high ≤ low
  · simp [hlh] at h
  · simp [hlh, Rng.next] at h
    have hpos : (0 : ℤ) < high - low := by omega
    have h1 := Int.emod_nonneg (g.stream g.idx : ℤ) (by omega : high - low ≠ 0)
    have h2 := Int.emod_lt_of_pos (g.stream g.idx : ℤ) hpos
    omega

theorem randint_err {low high : ℤ} (g : Rng) (h : high ≤ low) :
    randint low high g = .error () := by
  simp [randint, h]

theorem negPixel_invol (p : Pixel) (hp : p.InRange) : negPixel (negPixel p) = p := by
  obtain ⟨r, g, b⟩ := p
  obtain ⟨h1, h2, h3⟩ := hp
  simp only [negPixel, Pixel.mk.injEq]
  refine ⟨?_, ?_, ?_⟩ <;> simp at h1 h2 h3 <;> omega

theorem negRow_invol (row : List Pixel) (h : ∀ p ∈ row, p.InRange) :
    (row.map negPixel).map negPixel = row := by
  induction row with
  | nil => rfl
  | cons p ps ih =>
    simp only [List.map_cons, List.cons.injEq]
    exact ⟨negPixel_invol p (h p (by simp)), ih (fun q hq => h q (by simp [hq]))⟩

/-- C7: the negative transform maps every 8-bit sample x to 255 - x, and
applying the per-sample inversion twice returns every original sample
exactly, so the double negative of any in-range buffer is that buffer. -/
theorem c7_negative_involution (i : Img) (h : ∀ row ∈ i, ∀ p ∈ row, p.InRange) :
    negBuffer (negBuffer i) = i := by
  unfold negBuffer
  induction i with
  | nil => rfl
  | cons row rows ih =>
    simp only [List.map_cons, List.cons.injEq]
    exact ⟨negRow_invol row (h row (by simp)),
           ih (fun r hr q hq => h r (by simp [hr]) q hq)⟩

theorem c7_witness :
    (∀ row ∈ img1, ∀ p ∈ row, p.InRange) ∧ negBuffer (negBuffer img1) = img1 :=
  ⟨by decide, c7_negative_involution img1 (by decide)⟩

/-- C8: the disk guard returns false at 10 MB free against its hardcoded
50 MB threshold, true at 100 MB free, and true whenever the filesystem
query itself raises, so a monitoring failure never blocks capture. -/
theorem c8_disk_guard :
    check_disk_space (.ok (10 * 1024 * 1024)) = false ∧
    check_disk_space (.ok (100 * 1024 * 1024)) = true ∧
    ∀ e : Unit, check_disk_space (.error e) = true :=
  ⟨by decide, by decide, fun _ => rfl⟩

/-- C3: for every existing input file, the pass-through filter writes a
byte-identical copy at the output path (it invokes no decode, resize or
encode stage: its definition touches none of the PIL oracle). -/
theorem c3_passthrough (fs : FS) (inp out : String) (b : Bytes)
    (h : fs inp = some b) :
    filtro_normal fs inp out = .ok (setFile fs out b) ∧
    setFile fs out b out = some b := by
  refine ⟨?_, setFile_self fs out b⟩
  simp [filtro_normal, copyfile, h]

theorem c3_witness :
    fsA "a" = some [1] ∧
    (filtro_normal fsA "a" "b" = .ok (setFile fsA "b" [1]) ∧
     setFile fsA "b" [1] "b" = some [1]) :=
  ⟨rfl, c3_passthrough fsA "a" "b" [1] rfl⟩

theorem sepiaPixel_order (l : ℕ) :
    (sepiaPixel l).b ≤ (sepiaPixel l).g ∧ (sepiaPixel l).g ≤ (sepiaPixel l).r := by
  simp only [sepiaPixel]
  constructor
  · apply min_le_min _ (le_refl 255)
    calc l / 2 = 4 * l / 8 := by omega
    _ ≤ 4 * l / 5 := Nat.div_le_div_left (by omega) (by omega)
  · apply min_le_min _ (le_refl 255)
    omega

/-- C6: every pixel of the buffer the sepia filter encodes satisfies
blue <= green <= red, the channels being clamp(L), clamp(L*0.8),
clamp(L*0.5) of the pixel's luminance. -/
theorem c6_sepia_order (m : PILModel) (fs : FS) (inp : String) (i : Img)
    (bts : Bytes) (h : sepiaCore m fs inp 800 600 = .ok (i, bts)) :
    ∀ row ∈ i, ∀ p ∈ row, p.b ≤ p.g ∧ p.g ≤ p.r := by
  have hi : i = sepiaBuffer (okVal (load_and_resize m fs inp 800 600) []) := by
    unfold sepiaCore at h
    cases hl : load_and_resize m fs inp 800 600 with
    | error e => rw [hl] at h; simp [Bind.bind, Except.bind] at h
    | ok img =>
      rw [hl] at h
      simp only [Bind.bind, Except.bind] at h
      cases he : m.encode (sepiaBuffer img) 85 with
      | none => rw [he] at h; simp at h
      | some bb => rw [he] at h; simp at h; simp [okVal, ← h.1]
  subst hi
  intro row hrow p hp
  unfold sepiaBuffer at hrow
  obtain ⟨grow, _, rfl⟩ := List.mem_map.mp hrow
  obtain ⟨l, _, rfl⟩ := List.mem_map.mp hp
  exact sepiaPixel_order l

theorem c6_witness :
    sepiaCore pilOk fsA "a" 800 600 = .ok (sepiaBuffer img1, [9]) ∧
    ∀ row ∈ sepiaBuffer img1, ∀ p ∈ row, p.b ≤ p.g ∧ p.g ≤ p.r :=
  ⟨rfl, c6_sepia_order pilOk fsA "a" (sepiaBuffer img1) [9] rfl⟩

/-- C1 (amended): whenever the load, transform or encode stage of a catalog
filter raises and the input file itself is readable, the wrapper writes a
verbatim byte copy of the input at the output path and returns normally
(filtro_espiral additionally returning False), shown for the two filters the
claim names. -/
theorem c1_fallback (m : PILModel) (sm : SpiralMath) (g : Rng) (fs : FS)
    (inp out : String) (intens : ℤ) (q : ℚ) (b : Bytes)
    (hin : fs inp = some b) :
    (granoCore m g fs inp intens 800 600 = .error () →
      filtro_grano_analogico m g fs inp out intens 800 600 = .ok (setFile fs out b) ∧
      setFile fs out b out = some b) ∧
    (espiralCore m sm fs inp q 800 600 = .error () →
      filtro_espiral m sm fs inp out q 800 600 = .ok (setFile fs out b, false) ∧
      setFile fs out b out = some b) := by
  constructor
  · intro hc
    refine ⟨?_, setFile_self fs out b⟩
    simp [filtro_grano_analogico, hc, copyfile, hin]
  · intro hc
    refine ⟨?_, setFile_self fs out b⟩
    simp [filtro_espiral, hc, copyfile, hin, Except.map]

theorem c1_witness :
    fsA "a" = some [1] ∧
    granoCore pilNoEnc (rngAt 0 0) fsA "a" 20 800 600 = .error () ∧
    espiralCore pilNoEnc sm0 fsA "a" 0 800 600 = .error () ∧
    (filtro_grano_analogico pilNoEnc (rngAt 0 0) fsA "a" "b" 20 800 600 =
        .ok (setFile fsA "b" [1]) ∧
      setFile fsA "b" [1] "b" = some [1]) ∧
    (filtro_espiral pilNoEnc sm0 fsA "a" "b" 0 800 600 =
        .ok (setFile fsA "b" [1], false) ∧
      setFile fsA "b" [1] "b" = some [1]) :=
  ⟨rfl, rfl, rfl,
   (c1_fallback pilNoEnc sm0 (rngAt 0 0) fsA "a" "b" 20 0 [1] rfl).1 rfl,
   (c1_fallback pilNoEnc sm0 (rngAt 0 0) fsA "a" "b" 20 0 [1] rfl).2 rfl⟩

/-- C1 counterexample: when no file exists at the input path, the load
stage raises, the unguarded fallback copy raises in turn, and the filter
invocation propagates the error instead of returning normally, refuting
the claim as stated for this failing input. -/
theorem c1_counterexample :
    load_and_resize pilOk fsNone "a" 800 600 = .error () ∧
    filtro_grano_analogico pilOk (rngAt 0 0) fsNone "a" "b" 20 800 600 = .error () :=
  ⟨rfl, rfl⟩

theorem bandDraw_props {h : ℕ} {shift : ℤ} {g g' : Rng} {b : Band}
    (hd : bandDraw h shift g = .ok (b, g')) :
    (0 < shift → -shift ≤ b.xOffset ∧ b.xOffset < shift) ∧
    (2 ≤ h → 2 ≤ b.yEnd - b.y ∧ b.yEnd - b.y ≤ 7) := by
  unfold bandDraw at hd
  cases h1 : randint 0 (max 1 ((h : ℤ) - 10)) g with
  | error e => rw [h1] at hd; simp [Bind.bind, Except.bind] at hd
  | ok yg =>
    obtain ⟨y, g1⟩ := yg
    rw [h1] at hd
    simp only [Bind.bind, Except.bind] at hd
    cases h2 : randint 2 8 g1 with
    | error e => rw [h2] at hd; simp at hd
    | ok sg =>
      obtain ⟨sh, g2⟩ := sg
      rw [h2] at hd
      dsimp only at hd
      cases h3 : randint (-shift) shift g2 with
      | error e => rw [h3] at hd; simp at hd
      | ok og =>
        obtain ⟨off, g3⟩ := og
        rw [h3] at hd
        simp only [Except.ok.injEq, Prod.mk.injEq] at hd
        obtain ⟨hb, -⟩ := hd
        have hy := randint_bounds h1
        have hsh := randint_bounds h2
        have ho := randint_bounds h3
        subst hb
        refine ⟨fun _ => ⟨ho.1, ho.2⟩, fun hh => ?_⟩
        simp only
        omega

theorem glitchBands_spec : ∀ (k h : ℕ) (shift : ℤ) (g : Rng) (bs : List Band)
    (g' : Rng), glitchBands k h shift g = .ok (bs, g') →
    bs.length = k ∧
    ∀ b ∈ bs, (0 < shift → -shift ≤ b.xOffset ∧ b.xOffset < shift) ∧
      (2 ≤ h → 2 ≤ b.yEnd - b.y ∧ b.yEnd - b.y ≤ 7) := by
  intro k
  induction k with
  | zero =>
    intro h shift g bs g' hgb
    unfold glitchBands at hgb
    simp only [Except.ok.injEq, Prod.mk.injEq] at hgb
    obtain ⟨rfl, -⟩ := hgb
    simp
  | succ k ih =>
    intro h shift g bs g' hgb
    unfold glitchBands at hgb
    cases h1 : bandDraw h shift g with
    | error e => rw [h1] at hgb; simp [Bind.bind, Except.bind] at hgb
    | ok bg =>
      obtain ⟨b, g1⟩ := bg
      rw [h1] at hgb
      simp only [Bind.bind, Except.bind] at hgb
      cases h2 : glitchBands k h shift g1 with
      | error e => rw [h2] at hgb; simp at hgb
      | ok bsg =>
        obtain ⟨bs', g2⟩ := bsg
        rw [h2] at hgb
        simp only [Except.ok.injEq, Prod.mk.injEq] at hgb
        obtain ⟨rfl, -⟩ := hgb
        obtain ⟨hlen, hmem⟩ := ih h shift g1 bs' g2 h2
        refine ⟨by simp [hlen], ?_⟩
        intro bb hbb
        rcases List.mem_cons.mp hbb with hq | hq
        · subst hq; exact bandDraw_props h1
        · exact hmem bb hq

/-- C5 (amended): in every glitch invocation with shift > 0 on a working
image of height at least 2, the red-channel circular shift offset and every
band's independent offset lie in [-shift, shift], at most 15 bands are
shifted regardless of the requested glitch_lines, and every shifted band is
between 2 and 7 rows tall. -/
theorem c5_glitch_bounds (g : Rng) (h n : ℕ) (shift : ℤ)
    (hs : 0 < shift) (hh : 2 ≤ h) :
    (∀ off g', randint (-shift) shift g = .ok (off, g') →
      -shift ≤ off ∧ off ≤ shift) ∧
    ∀ bs g', glitchBands (min n 15) h shift g = .ok (bs, g') →
      bs.length ≤ 15 ∧
      ∀ b ∈ bs, (-shift ≤ b.xOffset ∧ b.xOffset ≤ shift) ∧
        2 ≤ b.yEnd - b.y ∧ b.yEnd - b.y ≤ 7 := by
  constructor
  · intro off g' hr
    have := randint_bounds hr
    omega
  · intro bs g' hgb
    obtain ⟨hlen, hmem⟩ := glitchBands_spec (min n 15) h shift g bs g' hgb
    refine ⟨by omega, ?_⟩
    intro b hb
    obtain ⟨h1, h2⟩ := hmem b hb
    have h1' := h1 hs
    have h2' := h2 hh
    exact ⟨⟨h1'.1, by omega⟩, h2'⟩

theorem c5_witness :
    (0 : ℤ) < 1 ∧ 2 ≤ 2 ∧
    ((∀ off g', randint (-1) 1 (rngAt 0 0) = .ok (off, g') →
        -1 ≤ off ∧ off ≤ 1) ∧
      ∀ bs g', glitchBands (min 20 15) 2 1 (rngAt 0 0) = .ok (bs, g') →
        bs.length ≤ 15 ∧
        ∀ b ∈ bs, (-1 ≤ b.xOffset ∧ b.xOffset ≤ 1) ∧
          2 ≤ b.yEnd - b.y ∧ b.yEnd - b.y ≤ 7) :=
  ⟨by decide, by decide, c5_glitch_bounds (rngAt 0 0) 2 20 1 (by decide) (by decide)⟩

/-- C5 counterexample: a glitch invocation on a decodable 1-row image
(shift 1 > 0, glitch_lines 1) draws its red offset and then a single band
whose shifted region is rows [0, 1), i.e. of height 1, outside the claimed
range [2, 7]. -/
theorem c5_counterexample :
    load_and_resize pilOk fsA "a" 800 600 = .ok img1 ∧
    Img.height img1 = 1 ∧
    randint (-1) 1 (rngAt 0 0) = .ok (-1, rngAt 0 1) ∧
    glitchBands (min 1 15) 1 1 (rngAt 0 1) = .ok ([⟨0, 1, -1⟩], rngAt 0 4) ∧
    (⟨0, 1, -1⟩ : Band).yEnd - (⟨0, 1, -1⟩ : Band).y = 1 ∧
    ¬ 2 ≤ (⟨0, 1, -1⟩ : Band).yEnd - (⟨0, 1, -1⟩ : Band).y :=
  ⟨rfl, rfl, rfl, rfl, by decide, by decide⟩

theorem streakStep_err (h w : ℕ) (st : Img × Rng)
    (hb : ((min 60 (2 * h / 3) : ℕ) : ℤ) ≤ 20) :
    streakStep h w st = .error () := by
  obtain ⟨ma, g⟩ := st
  unfold streakStep
  cases h1 : randint 0 (w : ℤ) g with
  | error e => simp [Bind.bind, Except.bind, h1]
  | ok xg =>
    obtain ⟨x, g1⟩ := xg
    simp only [Bind.bind, Except.bind, h1]
    rw [randint_err g1 hb]

theorem streak_fold_err (h w n : ℕ) (st : Img × Rng) (hn : 0 < n)
    (hb : ((min 60 (2 * h / 3) : ℕ) : ℤ) ≤ 20) :
    (List.range n).foldlM (fun s _ => streakStep h w s) st = .error () := by
  obtain ⟨k, rfl⟩ : ∃ k, n = k + 1 := ⟨n - 1, by omega⟩
  rw [List.range_succ_eq_map, List.foldlM_cons, streakStep_err h w st hb]
  rfl

/-- C10: whenever the loaded image's height h lies in [25, 30], the
matrix-verbose filter's streak step has randint bounds (20, min(60, h//1.5))
with the upper bound at most 20, so the draw raises, the whole core errors,
and filtro_matrix_verde writes a byte copy of the input at the output path
and returns False, never applying the effect. -/
theorem c10_matrix_verde_streaks (m : PILModel) (g : Rng) (fs : FS)
    (inp out : String) (img : Img) (b : Bytes)
    (hload : load_and_resize m fs inp 800 600 = .ok img)
    (h25 : 25 ≤ Img.height img) (h30 : Img.height img ≤ 30)
    (hb : fs inp = some b) :
    min 60 (2 * Img.height img / 3) ≤ 20 ∧
    matrixVerdeCore m g fs inp 800 600 = .error () ∧
    filtro_matrix_verde m g fs inp out 800 600 = .ok (setFile fs out b, false) ∧
    setFile fs out b out = some b := by
  have hbound : min 60 (2 * Img.height img / 3) ≤ 20 := by
    have : 2 * Img.height img / 3 ≤ 20 := by
      unfold Img.height at h30 ⊢
      omega
    omega
  have hglen : (grayOf img).length = Img.height img := by
    simp [grayOf, Img.height]
  have hcore : matrixVerdeCore m g fs inp 800 600 = .error () := by
    unfold matrixVerdeCore
    rw [hload]
    simp only [Bind.bind, Except.bind]
    split
    · rfl
    · rw [streak_fold_err ((grayOf img).length) (((grayOf img).headD []).length) _ _
        (by rw [hglen]; omega) (by rw [hglen]; exact_mod_cast hbound)]
  refine ⟨hbound, hcore, ?_, setFile_self fs out b⟩
  simp [filtro_matrix_verde, hcore, copyfile, hb, Except.map]

theorem c10_witness :
    load_and_resize pil25 fsA "a" 800 600 = .ok img25 ∧
    25 ≤ Img.height img25 ∧ Img.height img25 ≤ 30 ∧ fsA "a" = some [1] ∧
    (min 60 (2 * Img.height img25 / 3) ≤ 20 ∧
      matrixVerdeCore pil25 (rngAt 999999 0) fsA "a" 800 600 = .error () ∧
      filtro_matrix_verde pil25 (rngAt 999999 0) fsA "a" "b" 800 600 =
        .ok (setFile fsA "b" [1], false) ∧
      setFile fsA "b" [1] "b" = some [1]) :=
  ⟨rfl, by decide, by decide, rfl,
   c10_matrix_verde_streaks pil25 (rngAt 999999 0) fsA "a" "b" img25 [1]
     rfl (by decide) (by decide) rfl⟩

theorem ratTrunc_intCast (z : ℤ) : ratTrunc (z : ℚ) = z := by
  simp [ratTrunc, Rat.num_intCast, Rat.den_intCast]


theorem ratTrunc_center (a b : ℤ) :
    ratTrunc ((a : ℚ) + ((b - a : ℤ) : ℚ)) = b := by
  rw [show ((a : ℚ) + ((b - a : ℤ) : ℚ)) = ((b : ℤ) : ℚ) by push_cast; ring]
  exact ratTrunc_intCast b

theorem espiralWarp_get (sm : SpiralMath) (q : ℚ) (i : Img) (y x : ℕ)
    (hy : y < i.height) (hx : x < i.width) :
    getPixel (espiralWarp sm q i) y x =
      espiralPixel sm i i.height i.width q y x := by
  unfold espiralWarp getPixel
  have h1 : (List.map (fun y => List.map
      (fun x => espiralPixel sm i i.height i.width q y x) (List.range i.width))
      (List.range i.height)).getD y [] =
      List.map (fun x => espiralPixel sm i i.height i.width q y x)
        (List.range i.width) := by
    rw [List.getD_eq_getElem?_getD, List.getElem?_map, List.getElem?_range hy]
    rfl
  rw [h1, List.getD_eq_getElem?_getD, List.getElem?_map, List.getElem?_range hx]
  rfl

/-- C4: with intensity 0 every destination pixel of the spiral warp receives
the source pixel at its own coordinate (the rotation (distance/max_radius)*0
vanishes and the exact polar round trip returns the pixel itself), and for
any intensity the zero-distance center pixel maps to itself.  The exactness
of the float trigonometry is taken as hypotheses on the oracle. -/
theorem c4_spiral_identity (sm : SpiralMath)
    (hX : ∀ dx dy, sm.srcX dx dy 0 = (dx : ℚ))
    (hY : ∀ dx dy, sm.srcY dx dy 0 = (dy : ℚ))
    (h00 : sm.dist 0 0 = 0)
    (i : Img) (y x : ℕ) (hy : y < i.height) (hx : x < i.width) :
    getPixel (espiralWarp sm 0 i) y x = getPixel i y x ∧
    ∀ q : ℚ, getPixel (espiralWarp sm q i) (i.height / 2) (i.width / 2) =
      getPixel i (i.height / 2) (i.width / 2) := by
  constructor
  · rw [espiralWarp_get sm 0 i y x hy hx]
    simp only [espiralPixel]
    split
    · rfl
    · rw [mul_zero, hX, hY, ratTrunc_center, ratTrunc_center]
      have hc : (0 : ℤ) ≤ (x : ℤ) ∧ (x : ℤ) < (i.width : ℤ) ∧
          (0 : ℤ) ≤ (y : ℤ) ∧ (y : ℤ) < (i.height : ℤ) := by omega
      rw [if_pos hc]
      simp [Int.toNat_natCast]
  · intro q
    have hy2 : i.height / 2 < i.height := by omega
    have hx2 : i.width / 2 < i.width := by omega
    rw [espiralWarp_get sm q i _ _ hy2 hx2]
    simp only [espiralPixel]
    rw [show ((i.width / 2 : ℕ) : ℤ) - (i.width : ℤ) / 2 = 0 from by omega,
        show ((i.height / 2 : ℕ) : ℤ) - (i.height : ℤ) / 2 = 0 from by omega,
        h00, if_pos rfl]

theorem c4_witness :
    (∀ dx dy, sm0.srcX dx dy 0 = (dx : ℚ)) ∧
    (∀ dx dy, sm0.srcY dx dy 0 = (dy : ℚ)) ∧
    sm0.dist 0 0 = 0 ∧ 0 < Img.height img1 ∧ 0 < Img.width img1 ∧
    (getPixel (espiralWarp sm0 0 img1) 0 0 = getPixel img1 0 0 ∧
      ∀ q : ℚ, getPixel (espiralWarp sm0 q img1)
          (Img.height img1 / 2) (Img.width img1 / 2) =
        getPixel img1 (Img.height img1 / 2) (Img.width img1 / 2)) :=
  ⟨fun _ _ => rfl, fun _ _ => rfl, by decide, by decide, by decide,
   c4_spiral_identity sm0 (fun _ _ => rfl) (fun _ _ => rfl) (by decide)
     img1 0 0 (by decide) (by decide)⟩

/-- C9: for every intensity and every input, each pixel of the spiral warp
output buffer is either exactly some pixel of the input buffer (at
coordinates inside its dimensions) or exactly black; no other sample value
is synthesized, whatever values the float trigonometry produces. -/
theorem c9_spiral_pixels (sm : SpiralMath) (q : ℚ) (i : Img) :
    ∀ row ∈ espiralWarp sm q i, ∀ p ∈ row,
      (∃ y x, y < i.height ∧ x < i.width ∧ p = getPixel i y x) ∨
      p = ⟨0, 0, 0⟩ := by
  intro row hrow p hp
  unfold espiralWarp at hrow
  obtain ⟨y, hy, rfl⟩ := List.mem_map.mp hrow
  obtain ⟨x, hx, rfl⟩ := List.mem_map.mp hp
  rw [List.mem_range] at hy hx
  simp only [espiralPixel]
  split
  · left
    exact ⟨y, x, hy, hx, rfl⟩
  · split
    next hin =>
      left
      exact ⟨_, _, by omega, by omega, rfl⟩
    next hin =>
      right
      rfl

theorem c9_witness :
    [(⟨10, 200, 30⟩ : Pixel)] ∈ espiralWarp sm0 0 img1 ∧
    (⟨10, 200, 30⟩ : Pixel) ∈ [(⟨10, 200, 30⟩ : Pixel)] ∧
    ((∃ y x, y < Img.height img1 ∧ x < Img.width img1 ∧
        (⟨10, 200, 30⟩ : Pixel) = getPixel img1 y x) ∨
      (⟨10, 200, 30⟩ : Pixel) = ⟨0, 0, 0⟩) :=
  ⟨by decide, by decide,
   c9_spiral_pixels sm0 0 img1 [⟨10, 200, 30⟩] (by decide) ⟨10, 200, 30⟩ (by decide)⟩

theorem roundAspectX_le (w h : ℕ) (hh : 0 < h) (hb : w * 600 ≤ 800 * h) :
    roundAspectX w h 600 ≤ 800 := by
  simp only [roundAspectX]
  have hf : 600 * w / h ≤ (600 * w + h - 1) / h := Nat.div_le_div_right (by omega)
  have hc : (600 * w + h - 1) / h < 801 := by
    rw [Nat.div_lt_iff_lt_mul hh]
    omega
  split <;> omega

theorem roundAspectY_le (w h : ℕ) (hw : 0 < w) (hb : 800 * h ≤ w * 600) :
    roundAspectY w h 800 ≤ 600 := by
  simp only [roundAspectY]
  have hf : 800 * h / w ≤ (800 * h + w - 1) / w := Nat.div_le_div_right (by omega)
  have hc : (800 * h + w - 1) / w < 601 := by
    rw [Nat.div_lt_iff_lt_mul hw]
    omega
  split
  next h0 =>
    rw [if_neg Bool.false_ne_true]
    omega
  next h0 => split <;> omega

theorem thumbnailDims_le (w h : ℕ) :
    (thumbnailDims 800 600 w h).1 ≤ 800 ∧ (thumbnailDims 800 600 w h).2 ≤ 600 := by
  unfold thumbnailDims
  split
  next hfit => exact ⟨hfit.1, hfit.2⟩
  next hfit =>
    split
    next hland =>
      refine ⟨?_, le_refl 600⟩
      have hh : 0 < h := by
        by_contra hz
        push_neg at hz
        interval_cases h
        · simp at hland
          omega
      exact roundAspectX_le w h hh hland
    next hland =>
      refine ⟨le_refl 800, ?_⟩
      push_neg at hland
      have hw : 0 < w := by by_contra hz; push_neg at hz; interval_cases w; omega
      exact roundAspectY_le w h hw (by omega)

theorem thumbnailApply_le (m : PILModel) (hwf : PILwf m) (i : Img) :
    (thumbnailApply m 800 600 i).height ≤ 600 ∧
    (thumbnailApply m 800 600 i).width ≤ 800 := by
  unfold thumbnailApply
  split
  next hfit => exact ⟨hfit.2, hfit.1⟩
  next hfit =>
    set d := thumbnailDims 800 600 i.width i.height with hdd
    obtain ⟨hlen, hrows⟩ := hwf i d
    obtain ⟨h1, h2⟩ := thumbnailDims_le i.width i.height
    rw [← hdd] at h1 h2
    constructor
    · show (m.resample i d).length ≤ 600
      omega
    · show ((m.resample i d).headD []).length ≤ 800
      cases hr : m.resample i d with
      | nil => simp [hr]
      | cons a t =>
        have ha : a.length = d.1 := hrows a (by rw [hr]; exact List.mem_cons_self a t)
        simpa [ha] using h1

theorem load_bound (m : PILModel) (hwf : PILwf m) (fs : FS) (p : String)
    (img : Img) (hl : load_and_resize m fs p 800 600 = .ok img) :
    img.height ≤ 600 ∧ img.width ≤ 800 := by
  unfold load_and_resize at hl
  cases hf : fs p with
  | none => rw [hf] at hl; simp at hl
  | some bts =>
    rw [hf] at hl
    dsimp only at hl
    cases hd : m.decode bts with
    | none => rw [hd] at hl; simp at hl
    | some raw =>
      rw [hd] at hl
      simp only [Except.ok.injEq] at hl
      subst hl
      exact thumbnailApply_le m hwf raw

theorem dimsEq_refl {α : Type} (a : List (List α)) : DimsEq a a := ⟨rfl, rfl⟩

theorem dimsEq_trans {α β γ : Type} {a : List (List α)} {b : List (List β)}
    {c : List (List γ)} (h1 : DimsEq a b) (h2 : DimsEq b c) : DimsEq a c :=
  ⟨h1.1.trans h2.1, h1.2.trans h2.2⟩

theorem mapRows_dims {α β : Type} (f : List α → List β)
    (hf : ∀ r, (f r).length = r.length) (i : List (List α)) :
    DimsEq (i.map f) i := by
  constructor
  · simp
  · cases i with
    | nil => simp
    | cons r t => simp [hf r]

theorem setPixel_dims (i : Img) (y x : ℕ) (p : Pixel) :
    DimsEq (setPixel i y x p) i := by
  unfold setPixel DimsEq
  refine ⟨by simp, ?_⟩
  cases i with
  | nil => simp
  | cons r t =>
    cases y with
    | zero => simp
    | succ n => simp

theorem setGreen_dims (i : Img) (y x : ℕ) : DimsEq (setGreen i y x) i :=
  setPixel_dims i y x _

theorem foldl_dims {α : Type} (step : Img → α → Img)
    (hstep : ∀ ma a, DimsEq (step ma a) ma) (l : List α) :
    ∀ ma : Img, DimsEq (l.foldl step ma) ma := by
  induction l with
  | nil => intro ma; exact dimsEq_refl ma
  | cons a t ih =>
    intro ma
    rw [List.foldl_cons]
    exact dimsEq_trans (ih (step ma a)) (hstep ma a)

theorem foldlM_inv {σ α : Type} (f : σ → α → Except Unit σ) (P : σ → Prop)
    (hf : ∀ st a st', f st a = .ok st' → P st → P st') :
    ∀ (l : List α) (st st' : σ), l.foldlM f st = .ok st' → P st → P st' := by
  intro l
  induction l with
  | nil =>
    intro st st' h hp
    simp only [List.foldlM_nil] at h
    cases h
    exact hp
  | cons a t ih =>
    intro st st' h hp
    rw [List.foldlM_cons] at h
    cases hf1 : f st a with
    | error e => rw [hf1] at h; simp [Bind.bind, Except.bind] at h
    | ok st1 =>
      rw [hf1] at h
      simp only [Bind.bind, Except.bind] at h
      exact ih st1 st' h (hf st a st1 hf1 hp)

theorem mapRowRng_len (f : Pixel → Rng → Except Unit (Pixel × Rng)) :
    ∀ (row : List Pixel) (g : Rng) (r' : List Pixel) (g' : Rng),
      mapRowRng f row g = .ok (r', g') → r'.length = row.length := by
  intro row
  induction row with
  | nil =>
    intro g r' g' h
    unfold mapRowRng at h
    simp only [Except.ok.injEq, Prod.mk.injEq] at h
    rw [← h.1]
  | cons p ps ih =>
    intro g r' g' h
    unfold mapRowRng at h
    cases h1 : f p g with
    | error e => rw [h1] at h; simp [Bind.bind, Except.bind] at h
    | ok qg =>
      obtain ⟨q, g1⟩ := qg
      rw [h1] at h
      simp only [Bind.bind, Except.bind] at h
      cases h2 : mapRowRng f ps g1 with
      | error e => rw [h2] at h; simp at h
      | ok qsg =>
        obtain ⟨qs, g2⟩ := qsg
        rw [h2] at h
        simp only [Except.ok.injEq, Prod.mk.injEq] at h
        rw [← h.1]
        simp [ih g1 qs g2 h2]

theorem mapImgRng_dims (f : Pixel → Rng → Except Unit (Pixel × Rng)) :
    ∀ (i : Img) (g : Rng) (o : Img) (g' : Rng),
      mapImgRng f i g = .ok (o, g') → DimsEq o i := by
  intro i
  induction i with
  | nil =>
    intro g o g' h
    unfold mapImgRng at h
    simp only [Except.ok.injEq, Prod.mk.injEq] at h
    rw [← h.1]
    exact dimsEq_refl []
  | cons row rows ih =>
    intro g o g' h
    unfold mapImgRng at h
    cases h1 : mapRowRng f row g with
    | error e => rw [h1] at h; simp [Bind.bind, Except.bind] at h
    | ok rg =>
      obtain ⟨r', g1⟩ := rg
      rw [h1] at h
      simp only [Bind.bind, Except.bind] at h
      cases h2 : mapImgRng f rows g1 with
      | error e => rw [h2] at h; simp at h
      | ok rsg =>
        obtain ⟨rs', g2⟩ := rsg
        rw [h2] at h
        simp only [Except.ok.injEq, Prod.mk.injEq] at h
        rw [← h.1]
        refine ⟨?_, ?_⟩
        · have := (ih g1 rs' g2 h2).1
          simp [this]
        · simp [mapRowRng_len f row g r' g1 h1]

theorem rollRow_len (off : ℤ) (row : List Pixel) :
    (rollRow off row).length = row.length := by
  simp [rollRow]

theorem rollRed_dims (off : ℤ) (i : Img) : DimsEq (rollRed off i) i := by
  unfold rollRed
  apply mapRows_dims
  intro r
  simp

theorem applyBand_dims (i : Img) (b : Band) : DimsEq (applyBand i b) i := by
  unfold applyBand DimsEq
  refine ⟨by simp, ?_⟩
  cases i with
  | nil => simp
  | cons r t =>
    simp only [List.mapIdx_cons, List.headD_cons]
    split
    · simp [rollRow_len]
    · rfl

theorem bands_fold_dims (bands : List Band) (i : Img) :
    DimsEq (bands.foldl applyBand i) i :=
  foldl_dims applyBand applyBand_dims bands i

theorem espiralWarp_dims (sm : SpiralMath) (q : ℚ) (i : Img) :
    (espiralWarp sm q i).height = i.height ∧
    (espiralWarp sm q i).width ≤ i.width := by
  unfold espiralWarp Img.height Img.width
  refine ⟨by simp, ?_⟩
  cases hh : i.length with
  | zero => simp
  | succ k =>
    rw [List.range_succ_eq_map]
    simp

theorem setGreenChecked_dims (i : Img) (y x h w : ℕ) (i' : Img)
    (hc : setGreenChecked i y x h w = .ok i') : DimsEq i' i := by
  unfold setGreenChecked at hc
  split at hc
  · cases hc
    exact setGreen_dims i y x
  · cases hc

theorem msStep_pres (h w : ℕ) (st st' : Img × Rng)
    (hs : msStep h w st = .ok st') : DimsEq st'.1 st.1 := by
  obtain ⟨ma, g⟩ := st
  unfold msStep at hs
  dsimp only at hs
  cases h1 : randint 0 (w : ℤ) g with
  | error e => rw [h1] at hs; simp [Bind.bind, Except.bind] at hs
  | ok xg =>
    obtain ⟨x, g1⟩ := xg
    rw [h1] at hs
    simp only [Bind.bind, Except.bind] at hs
    cases h2 : randint 0 (h : ℤ) g1 with
    | error e => rw [h2] at hs; simp at hs
    | ok yg =>
      obtain ⟨y, g2⟩ := yg
      rw [h2] at hs
      dsimp only at hs
      split at hs
      · cases hs
        exact setPixel_dims ma y.toNat x.toNat _
      · cases hs
        exact dimsEq_refl ma

theorem streakStep_pres (h w : ℕ) (st st' : Img × Rng)
    (hs : streakStep h w st = .ok st') : DimsEq st'.1 st.1 := by
  obtain ⟨ma, g⟩ := st
  unfold streakStep at hs
  dsimp only at hs
  cases h1 : randint 0 (w : ℤ) g with
  | error e => rw [h1] at hs; simp [Bind.bind, Except.bind] at hs
  | ok xg =>
    obtain ⟨x, g1⟩ := xg
    rw [h1] at hs
    simp only [Bind.bind, Except.bind] at hs
    cases h2 : randint 20 ((min 60 (2 * h / 3) : ℕ) : ℤ) g1 with
    | error e => rw [h2] at hs; simp at hs
    | ok lg =>
      obtain ⟨len, g2⟩ := lg
      rw [h2] at hs
      dsimp only at hs
      cases h3 : randint 0 (max 1 ((h : ℤ) - len)) g2 with
      | error e => rw [h3] at hs; simp at hs
      | ok sg =>
        obtain ⟨startY, g3⟩ := sg
        rw [h3] at hs
        dsimp only at hs
        cases hs
        apply foldl_dims
        intro m2 a
        split
        · exact setGreen_dims m2 _ _
        · exact dimsEq_refl m2

theorem checkedDiag_pres (h w y x : ℕ) (ma m2 : Img)
    (hmap : (List.range 2).foldlM (fun m2 j =>
      if y + j < h then setGreenChecked m2 (y + j) (x + 1 - j) h w
      else .ok m2) ma = .ok m2) : DimsEq m2 ma := by
  refine foldlM_inv _ (fun mm => DimsEq mm ma) ?_ (List.range 2) ma m2 hmap
    (dimsEq_refl ma)
  intro mm a mm' hf hp
  split at hf
  · exact dimsEq_trans (setGreenChecked_dims mm _ _ h w mm' hf) hp
  · cases hf
    exact hp

theorem cellStep_pres (gray : List (List ℕ)) (h w : ℕ) (yx : ℕ × ℕ)
    (st st' : Img × Rng) (hs : cellStep gray h w yx st = .ok st') :
    DimsEq st'.1 st.1 := by
  obtain ⟨ma, g⟩ := st
  obtain ⟨y, x⟩ := yx
  unfold cellStep at hs
  dsimp only at hs
  split at hs
  case isFalse =>
    cases hs
    exact dimsEq_refl ma
  case isTrue =>
    rcases hrf : randFrac g with ⟨rv, g1⟩
    rw [hrf] at hs
    dsimp only at hs
    split at hs
    case isFalse =>
      cases hs
      exact dimsEq_refl ma
    case isTrue =>
      cases hB : sliceMeanLt100 gray y (min (y + 3) h) x (min (x + 2) w) with
      | false =>
        rw [hB] at hs
        rw [if_neg Bool.false_ne_true] at hs
        cases hs
        exact dimsEq_refl ma
      | true =>
        rw [hB] at hs
        rw [if_pos rfl] at hs
        rcases hpc : randChoice4 g1 with ⟨pt, g2⟩
        rw [hpc] at hs
        dsimp only at hs
        split at hs
        · -- pattern 1: a single centered dot
          split at hs
          · cases hs
            exact setGreen_dims ma _ _
          · cases hs
            exact dimsEq_refl ma
        · split at hs
          · -- pattern 2: a vertical tick
            split at hs
            · cases hs
              apply foldl_dims
              intro m2 a
              exact setGreen_dims m2 _ _
            · cases hs
              exact dimsEq_refl ma
          · split at hs
            · -- pattern 3: a horizontal tick
              split at hs
              · cases hs
                apply foldl_dims
                intro m2 a
                exact setGreen_dims m2 _ _
              · cases hs
                exact dimsEq_refl ma
            · -- pattern 4: a diagonal, one of the two orientations
              rcases hrf2 : randFrac g2 with ⟨rv2, g3⟩
              rw [hrf2] at hs
              dsimp only at hs
              split at hs
              · cases hs
                apply foldl_dims
                intro m2 a
                split
                · exact setGreen_dims m2 _ _
                · exact dimsEq_refl m2
              · cases hmap : ((List.range 2).foldlM (fun m2 j =>
                    if y + j < h then setGreenChecked m2 (y + j) (x + 1 - j) h w
                    else .ok m2) ma) with
                | error e => rw [hmap] at hs; simp [Except.map] at hs
                | ok m2 =>
                  rw [hmap] at hs
                  simp only [Except.map, Except.ok.injEq] at hs
                  rw [← hs]
                  exact checkedDiag_pres h w y x ma m2 hmap

theorem dims_le (a b : Img) (hd : DimsEq a b) (h1 : Img.height b ≤ 600)
    (h2 : Img.width b ≤ 800) : Img.height a ≤ 600 ∧ Img.width a ≤ 800 := by
  unfold Img.height Img.width at *
  unfold DimsEq at hd
  omega

theorem grayOf_dims (i : Img) : DimsEq (grayOf i) i :=
  mapRows_dims _ (fun r => by simp) i

theorem rojoBuffer_dims (i : Img) : DimsEq (rojoBuffer i) i :=
  dimsEq_trans (mapRows_dims _ (fun r => by simp) (grayOf i)) (grayOf_dims i)

theorem sepiaBuffer_dims (i : Img) : DimsEq (sepiaBuffer i) i :=
  dimsEq_trans (mapRows_dims _ (fun r => by simp) (grayOf i)) (grayOf_dims i)

theorem azulBuffer_dims (i : Img) : DimsEq (azulBuffer i) i :=
  dimsEq_trans (mapRows_dims _ (fun r => by simp) (grayOf i)) (grayOf_dims i)

theorem wesBuffer_dims (i : Img) : DimsEq (wesBuffer i) i :=
  mapRows_dims _ (fun r => by simp) i

theorem negBuffer_dims (i : Img) : DimsEq (negBuffer i) i :=
  mapRows_dims _ (fun r => by simp) i

theorem grano_bounded (m : PILModel) (g : Rng) (fs : FS) (inp out : String)
    (intens : ℤ) (hwf : PILwf m) (r : Img × Bytes × Rng)
    (hc : granoCore m g fs inp intens 800 600 = .ok r) :
    Img.height r.1 ≤ 600 ∧ Img.width r.1 ≤ 800 ∧
    filtro_grano_analogico m g fs inp out intens 800 600 =
      .ok (setFile fs out r.2.1) := by
  have hwrap : filtro_grano_analogico m g fs inp out intens 800 600 =
      .ok (setFile fs out r.2.1) := by
    unfold filtro_grano_analogico
    rw [hc]
  refine ⟨?_, ?_, hwrap⟩ <;>
  · unfold granoCore at hc
    cases hload : load_and_resize m fs inp 800 600 with
    | error e => rw [hload] at hc; simp [Bind.bind, Except.bind] at hc
    | ok img =>
      rw [hload] at hc
      simp only [Bind.bind, Except.bind] at hc
      cases hmap : mapImgRng (granoPixel intens) img g with
      | error e => rw [hmap] at hc; simp at hc
      | ok ng =>
        obtain ⟨noisy, g'⟩ := ng
        rw [hmap] at hc
        dsimp only at hc
        cases henc : m.encode noisy 85 with
        | none => rw [henc] at hc; simp at hc
        | some bts =>
          rw [henc] at hc
          cases hc
          have hb := load_bound m hwf fs inp img hload
          have hd := mapImgRng_dims (granoPixel intens) img g noisy g' hmap
          have := dims_le noisy img hd hb.1 hb.2
          dsimp only
          omega

theorem glitch_bounded (m : PILModel) (g : Rng) (fs : FS) (inp out : String)
    (shift : ℤ) (glitch_lines : ℕ) (hwf : PILwf m) (r : Img × Bytes × Rng)
    (hc : glitchCore m g fs inp shift glitch_lines 800 600 = .ok r) :
    Img.height r.1 ≤ 600 ∧ Img.width r.1 ≤ 800 ∧
    filtro_glitch_digital m g fs inp out shift glitch_lines 800 600 =
      .ok (setFile fs out r.2.1) := by
  have hwrap : filtro_glitch_digital m g fs inp out shift glitch_lines 800 600 =
      .ok (setFile fs out r.2.1) := by
    unfold filtro_glitch_digital
    rw [hc]
  refine ⟨?_, ?_, hwrap⟩ <;>
  · unfold glitchCore at hc
    cases hload : load_and_resize m fs inp 800 600 with
    | error e => rw [hload] at hc; simp [Bind.bind, Except.bind] at hc
    | ok img =>
      rw [hload] at hc
      simp only [Bind.bind, Except.bind] at hc
      cases hoff : randint (-shift) shift g with
      | error e => rw [hoff] at hc; simp at hc
      | ok og =>
        obtain ⟨off, g'⟩ := og
        rw [hoff] at hc
        dsimp only at hc
        cases hbs : glitchBands (min glitch_lines 15) img.height shift g' with
        | error e => rw [hbs] at hc; simp at hc
        | ok bg =>
          obtain ⟨bands, g''⟩ := bg
          rw [hbs] at hc
          dsimp only at hc
          cases henc : m.encode (bands.foldl applyBand (rollRed off img)) 85 with
          | none => rw [henc] at hc; simp at hc
          | some bts =>
            rw [henc] at hc
            cases hc
            have hb := load_bound m hwf fs inp img hload
            have hd := dimsEq_trans (bands_fold_dims bands (rollRed off img))
              (rollRed_dims off img)
            have := dims_le _ img hd hb.1 hb.2
            dsimp only
            omega

theorem rojo_bounded (m : PILModel) (fs : FS) (inp out : String)
    (hwf : PILwf m) (r : Img × Bytes)
    (hc : rojoCore m fs inp 800 600 = .ok r) :
    Img.height r.1 ≤ 600 ∧ Img.width r.1 ≤ 800 ∧
    filtro_rojo_contraste m fs inp out 800 600 = .ok (setFile fs out r.2) := by
  have hwrap : filtro_rojo_contraste m fs inp out 800 600 =
      .ok (setFile fs out r.2) := by
    unfold filtro_rojo_contraste
    rw [hc]
  refine ⟨?_, ?_, hwrap⟩ <;>
  · unfold rojoCore at hc
    cases hload : load_and_resize m fs inp 800 600 with
    | error e => rw [hload] at hc; simp [Bind.bind, Except.bind] at hc
    | ok img =>
      rw [hload] at hc
      simp only [Bind.bind, Except.bind] at hc
      cases henc : m.encode (rojoBuffer img) 85 with
      | none => rw [henc] at hc; simp at hc
      | some bts =>
        rw [henc] at hc
        cases hc
        have hb := load_bound m hwf fs inp img hload
        have := dims_le _ img (rojoBuffer_dims img) hb.1 hb.2
        dsimp only
        omega

theorem sepia_bounded (m : PILModel) (fs : FS) (inp out : String)
    (hwf : PILwf m) (r : Img × Bytes)
    (hc : sepiaCore m fs inp 800 600 = .ok r) :
    Img.height r.1 ≤ 600 ∧ Img.width r.1 ≤ 800 ∧
    filtro_sepia_contraste m fs inp out 800 600 = .ok (setFile fs out r.2) := by
  have hwrap : filtro_sepia_contraste m fs inp out 800 600 =
      .ok (setFile fs out r.2) := by
    unfold filtro_sepia_contraste
    rw [hc]
  refine ⟨?_, ?_, hwrap⟩ <;>
  · unfold sepiaCore at hc
    cases hload : load_and_resize m fs inp 800 600 with
    | error e => rw [hload] at hc; simp [Bind.bind, Except.bind] at hc
    | ok img =>
      rw [hload] at hc
      simp only [Bind.bind, Except.bind] at hc
      cases henc : m.encode (sepiaBuffer img) 85 with
      | none => rw [henc] at hc; simp at hc
      | some bts =>
        rw [henc] at hc
        cases hc
        have hb := load_bound m hwf fs inp img hload
        have := dims_le _ img (sepiaBuffer_dims img) hb.1 hb.2
        dsimp only
        omega

theorem azul_bounded (m : PILModel) (fs : FS) (inp out : String)
    (hwf : PILwf m) (r : Img × Bytes)
    (hc : azulCore m fs inp 800 600 = .ok r) :
    Img.height r.1 ≤ 600 ∧ Img.width r.1 ≤ 800 ∧
    filtro_azul_contraste m fs inp out 800 600 = .ok (setFile fs out r.2) := by
  have hwrap : filtro_azul_contraste m fs inp out 800 600 =
      .ok (setFile fs out r.2) := by
    unfold filtro_azul_contraste
    rw [hc]
  refine ⟨?_, ?_, hwrap⟩ <;>
  · unfold azulCore at hc
    cases hload : load_and_resize m fs inp 800 600 with
    | error e => rw [hload] at hc; simp [Bind.bind, Except.bind] at hc
    | ok img =>
      rw [hload] at hc
      simp only [Bind.bind, Except.bind] at hc
      cases henc : m.encode (azulBuffer img) 85 with
      | none => rw [henc] at hc; simp at hc
      | some bts =>
        rw [henc] at hc
        cases hc
        have hb := load_bound m hwf fs inp img hload
        have := dims_le _ img (azulBuffer_dims img) hb.1 hb.2
        dsimp only
        omega

theorem espiral_bounded (m : PILModel) (sm : SpiralMath) (fs : FS)
    (inp out : String) (q : ℚ) (hwf : PILwf m) (r : Img × Bytes)
    (hc : espiralCore m sm fs inp q 800 600 = .ok r) :
    Img.height r.1 ≤ 600 ∧ Img.width r.1 ≤ 800 ∧
    filtro_espiral m sm fs inp out q 800 600 =
      .ok (setFile fs out r.2, true) := by
  have hwrap : filtro_espiral m sm fs inp out q 800 600 =
      .ok (setFile fs out r.2, true) := by
    unfold filtro_espiral
    rw [hc]
  refine ⟨?_, ?_, hwrap⟩ <;>
  · unfold espiralCore at hc
    cases hload : load_and_resize m fs inp 800 600 with
    | error e => rw [hload] at hc; simp [Bind.bind, Except.bind] at hc
    | ok img =>
      rw [hload] at hc
      simp only [Bind.bind, Except.bind] at hc
      cases henc : m.encode (espiralWarp sm q img) 85 with
      | none => rw [henc] at hc; simp at hc
      | some bts =>
        rw [henc] at hc
        cases hc
        have hb := load_bound m hwf fs inp img hload
        have hd := espiralWarp_dims sm q img
        dsimp only
        omega

theorem wes_bounded (m : PILModel) (fs : FS) (inp out : String)
    (hwf : PILwf m) (r : Img × Bytes)
    (hc : wesCore m fs inp 800 600 = .ok r) :
    Img.height r.1 ≤ 600 ∧ Img.width r.1 ≤ 800 ∧
    filtro_wes_anderson m fs inp out 800 600 =
      .ok (setFile fs out r.2, true) := by
  have hwrap : filtro_wes_anderson m fs inp out 800 600 =
      .ok (setFile fs out r.2, true) := by
    unfold filtro_wes_anderson
    rw [hc]
  refine ⟨?_, ?_, hwrap⟩ <;>
  · unfold wesCore at hc
    cases hload : load_and_resize m fs inp 800 600 with
    | error e => rw [hload] at hc; simp [Bind.bind, Except.bind] at hc
    | ok img =>
      rw [hload] at hc
      simp only [Bind.bind, Except.bind] at hc
      cases henc : m.encode (wesBuffer img) 90 with
      | none => rw [henc] at hc; simp at hc
      | some bts =>
        rw [henc] at hc
        cases hc
        have hb := load_bound m hwf fs inp img hload
        have := dims_le _ img (wesBuffer_dims img) hb.1 hb.2
        dsimp only
        omega

theorem negativo_bounded (m : PILModel) (fs : FS) (inp out : String)
    (hwf : PILwf m) (r : Img × Bytes)
    (hc : negativoCore m fs inp 800 600 = .ok r) :
    Img.height r.1 ≤ 600 ∧ Img.width r.1 ≤ 800 ∧
    filtro_negativo m fs inp out 800 600 =
      .ok (setFile fs out r.2, true) := by
  have hwrap : filtro_negativo m fs inp out 800 600 =
      .ok (setFile fs out r.2, true) := by
    unfold filtro_negativo
    rw [hc]
  refine ⟨?_, ?_, hwrap⟩ <;>
  · unfold negativoCore at hc
    cases hload : load_and_resize m fs inp 800 600 with
    | error e => rw [hload] at hc; simp [Bind.bind, Except.bind] at hc
    | ok img =>
      rw [hload] at hc
      simp only [Bind.bind, Except.bind] at hc
      cases henc : m.encode (negBuffer img) 85 with
      | none => rw [henc] at hc; simp at hc
      | some bts =>
        rw [henc] at hc
        cases hc
        have hb := load_bound m hwf fs inp img hload
        have := dims_le _ img (negBuffer_dims img) hb.1 hb.2
        dsimp only
        omega

theorem matrixSimple_bounded (m : PILModel) (g : Rng) (fs : FS)
    (inp out : String) (hwf : PILwf m) (r : Img × Bytes × Rng)
    (hc : matrixSimpleCore m g fs inp 800 600 = .ok r) :
    Img.height r.1 ≤ 600 ∧ Img.width r.1 ≤ 800 ∧
    filtro_matrix_simple m g fs inp out 800 600 =
      .ok (setFile fs out r.2.1, true) := by
  have hwrap : filtro_matrix_simple m g fs inp out 800 600 =
      .ok (setFile fs out r.2.1, true) := by
    unfold filtro_matrix_simple
    rw [hc]
  refine ⟨?_, ?_, hwrap⟩ <;>
  · unfold matrixSimpleCore at hc
    cases hload : load_and_resize m fs inp 800 600 with
    | error e => rw [hload] at hc; simp [Bind.bind, Except.bind] at hc
    | ok img =>
      rw [hload] at hc
      simp only [Bind.bind, Except.bind] at hc
      set base : Img := img.map (List.map matrixSimplePixel) with hbase
      cases hfold : (List.range (base.width * base.height / 100)).foldlM
          (fun st _ => msStep base.height base.width st) (base, g) with
      | error e => rw [hfold] at hc; simp at hc
      | ok mg =>
        obtain ⟨ma, g'⟩ := mg
        rw [hfold] at hc
        dsimp only at hc
        cases henc : m.encode ma 90 with
        | none => rw [henc] at hc; simp at hc
        | some bts =>
          rw [henc] at hc
          cases hc
          have hb := load_bound m hwf fs inp img hload
          have hd1 : DimsEq ma base := by
            refine foldlM_inv _ (fun st => DimsEq st.1 base) ?_ _ _ _ hfold
              (dimsEq_refl base)
            intro st a st' hstep hp
            exact dimsEq_trans (msStep_pres base.height base.width st st' hstep) hp
          have hd : DimsEq ma img :=
            dimsEq_trans hd1 (mapRows_dims _ (fun rr => by simp) img)
          have := dims_le ma img hd hb.1 hb.2
          dsimp only
          omega

theorem matrixVerde_bounded (m : PILModel) (g : Rng) (fs : FS)
    (inp out : String) (hwf : PILwf m) (r : Img × Bytes × Rng)
    (hc : matrixVerdeCore m g fs inp 800 600 = .ok r) :
    Img.height r.1 ≤ 600 ∧ Img.width r.1 ≤ 800 ∧
    filtro_matrix_verde m g fs inp out 800 600 =
      .ok (setFile fs out r.2.1, true) := by
  have hwrap : filtro_matrix_verde m g fs inp out 800 600 =
      .ok (setFile fs out r.2.1, true) := by
    unfold filtro_matrix_verde
    rw [hc]
  refine ⟨?_, ?_, hwrap⟩ <;>
  · unfold matrixVerdeCore at hc
    cases hload : load_and_resize m fs inp 800 600 with
    | error e => rw [hload] at hc; simp [Bind.bind, Except.bind] at hc
    | ok img =>
      rw [hload] at hc
      simp only [Bind.bind, Except.bind] at hc
      set gray := grayOf img with hgray
      set base : Img := gray.map (List.map matrixVerdePixel) with hbase
      cases hcells : ((stepRange gray.length 3).flatMap (fun y =>
          (stepRange (gray.headD []).length 2).map (fun x => (y, x)))).foldlM
          (fun st yx => cellStep gray gray.length (gray.headD []).length yx st)
          (base, g) with
      | error e => rw [hcells] at hc; simp at hc
      | ok mg =>
        obtain ⟨ma, g'⟩ := mg
        rw [hcells] at hc
        dsimp only at hc
        cases hstreak : (List.range (gray.length / 25)).foldlM
            (fun st _ => streakStep gray.length (gray.headD []).length st)
            (ma, g') with
        | error e => rw [hstreak] at hc; simp at hc
        | ok mg2 =>
          obtain ⟨ma2, g''⟩ := mg2
          rw [hstreak] at hc
          dsimp only at hc
          cases henc : m.encode ma2 95 with
          | none => rw [henc] at hc; simp at hc
          | some bts =>
            rw [henc] at hc
            cases hc
            have hb := load_bound m hwf fs inp img hload
            have hd1 : DimsEq ma base := by
              refine foldlM_inv _ (fun st => DimsEq st.1 base) ?_ _ _ _ hcells
                (dimsEq_refl base)
              intro st a st' hstep hp
              exact dimsEq_trans (cellStep_pres gray gray.length
                (gray.headD []).length a st st' hstep) hp
            have hd2 : DimsEq ma2 ma := by
              refine foldlM_inv _ (fun st => DimsEq st.1 ma) ?_ _ _ _ hstreak
                (dimsEq_refl ma)
              intro st a st' hstep hp
              exact dimsEq_trans (streakStep_pres gray.length
                (gray.headD []).length st st' hstep) hp
            have hd : DimsEq ma2 img :=
              dimsEq_trans (dimsEq_trans hd2 hd1)
                (dimsEq_trans (mapRows_dims _ (fun rr => by simp) gray)
                  (grayOf_dims img))
            have := dims_le ma2 img hd hb.1 hb.2
            dsimp only
            omega

/-- C2 (amended): for every catalog filter other than the pass-through,
whenever the filter's load-transform-encode core completes without fallback,
the image buffer it encodes to output_path has width at most 800 and height
at most 600 (the default max_dimensions), assuming only the PIL resize
contract; the pass-through filter is excluded because it copies the input
bytes verbatim. -/
theorem c2_dims_bounded (m : PILModel) (sm : SpiralMath) (g : Rng) (fs : FS)
    (inp out : String) (intens shift : ℤ) (glitch_lines : ℕ) (q : ℚ)
    (hwf : PILwf m) :
    (∀ r, granoCore m g fs inp intens 800 600 = .ok r →
      Img.height r.1 ≤ 600 ∧ Img.width r.1 ≤ 800 ∧
      filtro_grano_analogico m g fs inp out intens 800 600 =
        .ok (setFile fs out r.2.1)) ∧
    (∀ r, glitchCore m g fs inp shift glitch_lines 800 600 = .ok r →
      Img.height r.1 ≤ 600 ∧ Img.width r.1 ≤ 800 ∧
      filtro_glitch_digital m g fs inp out shift glitch_lines 800 600 =
        .ok (setFile fs out r.2.1)) ∧
    (∀ r, rojoCore m fs inp 800 600 = .ok r →
      Img.height r.1 ≤ 600 ∧ Img.width r.1 ≤ 800 ∧
      filtro_rojo_contraste m fs inp out 800 600 = .ok (setFile fs out r.2)) ∧
    (∀ r, sepiaCore m fs inp 800 600 = .ok r →
      Img.height r.1 ≤ 600 ∧ Img.width r.1 ≤ 800 ∧
      filtro_sepia_contraste m fs inp out 800 600 = .ok (setFile fs out r.2)) ∧
    (∀ r, azulCore m fs inp 800 600 = .ok r →
      Img.height r.1 ≤ 600 ∧ Img.width r.1 ≤ 800 ∧
      filtro_azul_contraste m fs inp out 800 600 = .ok (setFile fs out r.2)) ∧
    (∀ r, espiralCore m sm fs inp q 800 600 = .ok r →
      Img.height r.1 ≤ 600 ∧ Img.width r.1 ≤ 800 ∧
      filtro_espiral m sm fs inp out q 800 600 =
        .ok (setFile fs out r.2, true)) ∧
    (∀ r, wesCore m fs inp 800 600 = .ok r →
      Img.height r.1 ≤ 600 ∧ Img.width r.1 ≤ 800 ∧
      filtro_wes_anderson m fs inp out 800 600 =
        .ok (setFile fs out r.2, true)) ∧
    (∀ r, matrixSimpleCore m g fs inp 800 600 = .ok r →
      Img.height r.1 ≤ 600 ∧ Img.width r.1 ≤ 800 ∧
      filtro_matrix_simple m g fs inp out 800 600 =
        .ok (setFile fs out r.2.1, true)) ∧
    (∀ r, matrixVerdeCore m g fs inp 800 600 = .ok r →
      Img.height r.1 ≤ 600 ∧ Img.width r.1 ≤ 800 ∧
      filtro_matrix_verde m g fs inp out 800 600 =
        .ok (setFile fs out r.2.1, true)) ∧
    (∀ r, negativoCore m fs inp 800 600 = .ok r →
      Img.height r.1 ≤ 600 ∧ Img.width r.1 ≤ 800 ∧
      filtro_negativo m fs inp out 800 600 =
        .ok (setFile fs out r.2, true)) :=
  ⟨fun r hc => grano_bounded m g fs inp out intens hwf r hc,
   fun r hc => glitch_bounded m g fs inp out shift glitch_lines hwf r hc,
   fun r hc => rojo_bounded m fs inp out hwf r hc,
   fun r hc => sepia_bounded m fs inp out hwf r hc,
   fun r hc => azul_bounded m fs inp out hwf r hc,
   fun r hc => espiral_bounded m sm fs inp out q hwf r hc,
   fun r hc => wes_bounded m fs inp out hwf r hc,
   fun r hc => matrixSimple_bounded m g fs inp out hwf r hc,
   fun r hc => matrixVerde_bounded m g fs inp out hwf r hc,
   fun r hc => negativo_bounded m fs inp out hwf r hc⟩

theorem c2_witness :
    PILwf pilOk ∧
    granoCore pilOk (rngAt 999999 0) fsA "a" 20 800 600 =
      .ok ([[⟨3, 193, 23⟩]], [9], rngAt 999999 1) ∧
    matrixVerdeCore pilOk (rngAt 999999 0) fsA "a" 800 600 =
      .ok ([[⟨15, 99, 7⟩]], [9], rngAt 999999 1) ∧
    (∀ r, granoCore pilOk (rngAt 999999 0) fsA "a" 20 800 600 = .ok r →
      Img.height r.1 ≤ 600 ∧ Img.width r.1 ≤ 800 ∧
      filtro_grano_analogico pilOk (rngAt 999999 0) fsA "a" "b" 20 800 600 =
        .ok (setFile fsA "b" r.2.1)) ∧
    (∀ r, matrixVerdeCore pilOk (rngAt 999999 0) fsA "a" 800 600 = .ok r →
      Img.height r.1 ≤ 600 ∧ Img.width r.1 ≤ 800 ∧
      filtro_matrix_verde pilOk (rngAt 999999 0) fsA "a" "b" 800 600 =
        .ok (setFile fsA "b" r.2.1, true)) ∧
    (∀ r, sepiaCore pilOk fsA "a" 800 600 = .ok r →
      Img.height r.1 ≤ 600 ∧ Img.width r.1 ≤ 800 ∧
      filtro_sepia_contraste pilOk fsA "a" "b" 800 600 =
        .ok (setFile fsA "b" r.2)) := by
  have hwf : PILwf pilOk := by
    intro i s
    refine ⟨by simp [pilOk, resample0], ?_⟩
    intro row hrow
    simp only [pilOk, resample0, List.mem_replicate] at hrow
    simp [hrow.2]
  have hall := c2_dims_bounded pilOk sm0 (rngAt 999999 0) fsA "a" "b" 20 1 1 0 hwf
  exact ⟨hwf, rfl, rfl, hall.1, hall.2.2.2.2.2.2.2.2.1, hall.2.2.2.1⟩

/-- C2 counterexample: the claim includes the pass-through selection, but
pass-through copies the input bytes verbatim: a decodable 1 x 1000 input
yields an output file at output_path that decodes to width 1000 > 800. -/
theorem c2_counterexample :
    pilWide.decode [1] = some imgWide ∧
    filtro_normal fsA "a" "b" = .ok (setFile fsA "b" [1]) ∧
    setFile fsA "b" [1] "b" = some [1] ∧
    Img.width imgWide = 1000 ∧
    ¬ Img.width imgWide ≤ 800 := by
  have hw : Img.width imgWide = 1000 := by
    unfold Img.width imgWide
    rw [List.headD_cons, List.length_replicate]
  exact ⟨rfl, rfl, rfl, hw, by omega⟩
